import Mathlib

/-!
# Verification of the BusTub buffer-pool core

A shallow embedding, in Lean 4, of the three source files of this repository:

* `src/buffer/lru_k_replacer.cpp` — the LRU-K replacement policy,
* `src/buffer/buffer_pool_manager.cpp` — the buffer pool manager (BPM),
* `src/primer/trie.cpp` — the copy-on-write trie.

The corresponding header files (`lru_k_replacer.h`, `buffer_pool_manager.h`,
`page.h`, `trie.h`) are not part of the repository snapshot; the few pieces of
behaviour they define (the `LRUKNode` history layout, `GetCurrentTimeStamp`,
`Page`'s initial metadata, `next_page_id_`'s start value, `TrieNode`) are
modelled from the specification and marked as such in their doc comments.

Machine integers: `page_id_t` and `frame_id_t` are C++ `int`s, `pin_count_`
is an `int`, sizes are `size_t`.  Every value these variables take in the
embedded operations is small and non-negative (frame ids are indices into the
pool, pin counts are only incremented, or decremented under a `> 0` guard),
so they are modelled as `Nat` / `Int` without wrap-around; the one place the
code leans on a machine bound — `ULONG_MAX` as the +infinity K-distance — is
modelled by `⊤ : WithTop Nat`.
-/

namespace BusTub

/-! ## Page data

`PAGE_SIZE` is the compile-time page size constant (`BUSTUB_PAGE_SIZE`); a
page's bytes are a list of that length.  The core code only ever moves whole
pages around (`ResetMemory` zeroes a frame, the disk manager copies whole
buffers), so no byte-level operation is needed. -/

def PAGE_SIZE : Nat := 4096

abbrev PageData := List Nat

/-- `Page::ResetMemory()`: the all-zero page. -/
def zeroPage : PageData := List.replicate PAGE_SIZE 0

/-! ## Association-list maps

`page_table_` is a `std::unordered_map<page_id_t, frame_id_t>`; it is never
iterated by the embedded operations, so it is modelled as an association list
with canonical insert (`(k,v)` consed onto the erased list).  The disk
manager's store is modelled the same way, with absent pages reading as the
all-zero page (spec §6: "on unknown id the store returns an all-zero page"). -/

def alookup {α β : Type} [DecidableEq α] (l : List (α × β)) (k : α) : Option β :=
  match l with
  | [] => none
  | (k', v) :: rest => if k' = k then some v else alookup rest k

def aerase {α β : Type} [DecidableEq α] (l : List (α × β)) (k : α) : List (α × β) :=
  l.filter (fun kv => kv.1 ≠ k)

def ainsert {α β : Type} [DecidableEq α] (l : List (α × β)) (k : α) (v : β) :
    List (α × β) :=
  (k, v) :: aerase l k

theorem alookup_cons {α β : Type} [DecidableEq α]
    (a : α) (b : β) (l : List (α × β)) (k : α) :
    alookup ((a, b) :: l) k = if a = k then some b else alookup l k := rfl

theorem aerase_cons_eq {α β : Type} [DecidableEq α]
    {a k : α} (b : β) (l : List (α × β)) (h : a = k) :
    aerase ((a, b) :: l) k = aerase l k := by
  simp [aerase, List.filter_cons, h]

theorem aerase_cons_ne {α β : Type} [DecidableEq α]
    {a k : α} (b : β) (l : List (α × β)) (h : a ≠ k) :
    aerase ((a, b) :: l) k = (a, b) :: aerase l k := by
  simp [aerase, List.filter_cons, h]

theorem alookup_aerase_self {α β : Type} [DecidableEq α]
    (l : List (α × β)) (k : α) : alookup (aerase l k) k = none := by
  induction l with
  | nil => rfl
  | cons kv rest ih =>
    obtain ⟨a, b⟩ := kv
    by_cases hk : a = k
    · rw [aerase_cons_eq b rest hk]; exact ih
    · rw [aerase_cons_ne b rest hk, alookup_cons, if_neg hk]; exact ih

theorem alookup_aerase_ne {α β : Type} [DecidableEq α]
    (l : List (α × β)) (k k' : α) (h : k ≠ k') :
    alookup (aerase l k) k' = alookup l k' := by
  induction l with
  | nil => rfl
  | cons kv rest ih =>
    obtain ⟨a, b⟩ := kv
    by_cases hk : a = k
    · rw [aerase_cons_eq b rest hk, alookup_cons, if_neg (by rw [hk]; exact h), ih]
    · rw [aerase_cons_ne b rest hk, alookup_cons, alookup_cons, ih]

theorem alookup_ainsert_self {α β : Type} [DecidableEq α]
    (l : List (α × β)) (k : α) (v : β) : alookup (ainsert l k v) k = some v := by
  simp [ainsert, alookup_cons]

theorem alookup_ainsert_ne {α β : Type} [DecidableEq α]
    (l : List (α × β)) (k k' : α) (v : β) (h : k ≠ k') :
    alookup (ainsert l k v) k' = alookup l k' := by
  rw [ainsert, alookup_cons, if_neg h, alookup_aerase_ne l k k' h]

theorem mem_aerase {α β : Type} [DecidableEq α]
    {l : List (α × β)} {k : α} {kv : α × β} (h : kv ∈ aerase l k) : kv ∈ l :=
  List.mem_of_mem_filter h

theorem mem_ainsert {α β : Type} [DecidableEq α]
    {l : List (α × β)} {k : α} {v : β} {kv : α × β} (h : kv ∈ ainsert l k v) :
    kv = (k, v) ∨ kv ∈ l := by
  rcases List.mem_cons.mp h with h | h
  · exact Or.inl h
  · exact Or.inr (mem_aerase h)

theorem alookup_mem {α β : Type} [DecidableEq α]
    {l : List (α × β)} {k : α} {v : β} (h : alookup l k = some v) : (k, v) ∈ l := by
  induction l with
  | nil => simp [alookup] at h
  | cons kv rest ih =>
    obtain ⟨a, b⟩ := kv
    rw [alookup_cons] at h
    by_cases ha : a = k
    · rw [if_pos ha] at h
      cases h
      rw [ha]
      exact List.mem_cons_self _ _
    · rw [if_neg ha] at h
      exact List.mem_cons_of_mem _ (ih h)

/-! ## LRU-K replacer (`src/buffer/lru_k_replacer.cpp`)

`node_store_` is a `std::map<frame_id_t, LRUKNode>`; `Evict` iterates it in
ascending key order, so the store is kept as an association list sorted
(strictly) by frame id: lookups and in-place updates preserve the order, and
a fresh node is inserted at its sorted position. -/

/-- Modelled from the spec: `LRUKNode` lives in the missing header
`lru_k_replacer.h`.  Spec §3: a node carries its frame id, "a bounded-length
history of access timestamps (newest-first, capped at K entries)", and an
`evictable` flag; nodes are "created on first access ... with evictable=false".
`k_` is stored per node (`LRUKNode node(frame_id, k_)` in `RecordAccess`). -/
structure LRUKNode where
  fid : Nat
  k : Nat
  history : List Nat
  isEvictable : Bool
deriving DecidableEq, Repr

/-- Modelled from the spec: `LRUKNode::RecordAccess` (missing header).
Spec §4.1: "stamp the node with the current logical time. ... The history
retains at most K entries; pushing a new timestamp evicts the oldest when
full"; the history is newest-first (§3), so the new stamp goes to the front
and the list is truncated to `k`. -/
def nodeRecord (n : LRUKNode) (t : Nat) : LRUKNode :=
  { n with history := (t :: n.history).take n.k }

/-- Modelled from the spec: `LRUKNode::GetKDistance(t)` (missing header).
Glossary: "at time `t`, for a frame with access history `h[0] > h[1] > … >
h[m-1]`, the value `t - h[K-1]` if `m ≥ K`, else +∞"; the code's +∞ is
`ULONG_MAX`, modelled as `⊤ : WithTop Nat`. -/
def kDistance (n : LRUKNode) (t : Nat) : WithTop Nat :=
  if n.k ≤ n.history.length then ((t - n.history.getD (n.k - 1) 0 : Nat) : WithTop Nat)
  else ⊤

/-- `history_.front()`: the newest recorded timestamp (history is
newest-first).  Every node in a reachable store has a nonempty history
(it was created by `RecordAccess`), so the default never fires. -/
def headTS (n : LRUKNode) : Nat := n.history.headD 0

/-- The `LRUKReplacer` state: `node_store_` (sorted by frame id),
`curr_size_`, the logical clock `current_timestamp_`, `replacer_size_`
(= `num_frames`) and `k_`. -/
structure Replacer where
  store : List (Nat × LRUKNode)
  currSize : Nat
  clock : Nat
  numFrames : Nat
  k : Nat
deriving DecidableEq, Repr

/-- `LRUKReplacer::LRUKReplacer(num_frames, k)`: empty store, `curr_size_ = 0`.
Modelled from the spec: the logical clock starts at 0 (missing header;
spec §3: "a monotonically increasing timestamp counter (logical clock) is
maintained by the replacer and incremented on every access or eviction
attempt"). -/
def replacerInit (numFrames k : Nat) : Replacer :=
  { store := [], currSize := 0, clock := 0, numFrames := numFrames, k := k }

/-- Insert a fresh node at its position in the key-sorted store
(`std::map::emplace`). -/
def sinsertNew (fid : Nat) (n : LRUKNode) : List (Nat × LRUKNode) →
    List (Nat × LRUKNode)
  | [] => [(fid, n)]
  | (f, m) :: rest =>
    if fid < f then (fid, n) :: (f, m) :: rest
    else if fid = f then (fid, n) :: rest
    else (f, m) :: sinsertNew fid n rest

/-- Replace the node stored under `fid` in place (`std::map` iterator
update); preserves the key order. -/
def supdate (fid : Nat) (n : LRUKNode) (l : List (Nat × LRUKNode)) :
    List (Nat × LRUKNode) :=
  l.map (fun kv => if kv.1 = fid then (fid, n) else kv)

/-- Modelled from the spec: `GetCurrentTimeStamp` (missing header) returns the
current logical time and advances the clock ("incremented on every access or
eviction attempt", spec §3). -/
def tick (r : Replacer) : Nat × Replacer :=
  (r.clock, { r with clock := r.clock + 1 })

/-- One iteration of the scan inside `LRUKReplacer::Evict`.  A non-evictable
node is skipped; the first evictable node seeds the candidate; a later
evictable node replaces the candidate iff its K-distance is strictly larger,
or both are +∞ (`ULONG_MAX`) and its `history_.front()` is strictly
smaller. -/
def evictStep (t : Nat) (best : Option (Nat × LRUKNode)) (kv : Nat × LRUKNode) :
    Option (Nat × LRUKNode) :=
  if !kv.2.isEvictable then best
  else
    match best with
    | none => some kv
    | some b =>
      let tmp := kDistance kv.2 t
      let val := kDistance b.2 t
      if tmp > val ∨ (tmp = val ∧ val = ⊤ ∧ headTS kv.2 < headTS b.2) then
        some kv
      else best

/-- The victim-selection scan of `LRUKReplacer::Evict`, walking the store in
ascending frame-id order. -/
def evictScan (t : Nat) (entries : List (Nat × LRUKNode)) :
    Option (Nat × LRUKNode) :=
  entries.foldl (evictStep t) none

/-- `LRUKReplacer::Evict`.  The timestamp is taken (and the clock advanced)
before the `curr_size_ == 0` check.  When `curr_size_ > 0` but no stored node
is evictable the C++ erases an uninitialized frame id (undefined behaviour);
that branch is modelled as a failed eviction and is unreachable in any state
the BPM can produce (`curr_size_` always equals the number of evictable
nodes). -/
def replacerEvict (r : Replacer) : Option Nat × Replacer :=
  let (t, r1) := tick r
  if r1.currSize = 0 then (none, r1)
  else
    match evictScan t r1.store with
    | none => (none, r1)
    | some (fid, _) =>
      (some fid, { r1 with store := aerase r1.store fid, currSize := r1.currSize - 1 })

/-- The bound checked by `BUSTUB_ASSERT` at the top of
`LRUKReplacer::RecordAccess`: `(0 <= frame_id) && (frame_id <=
static_cast<int>(replacer_size_))` — note `<=`, not `<`, on the upper end.
`frame_id_t` is a signed int, so the argument is an `Int` here. -/
def recordAccessAssert (r : Replacer) (fid : Int) : Prop :=
  0 ≤ fid ∧ fid ≤ (r.numFrames : Int)

instance (r : Replacer) (fid : Int) : Decidable (recordAccessAssert r fid) :=
  inferInstanceAs (Decidable (_ ∧ _))

/-- `LRUKReplacer::RecordAccess` past the assertion: stamp the node with the
current time, creating it (non-evictable) if absent. -/
def recordAccess (r : Replacer) (fid : Nat) : Replacer :=
  let (t, r1) := tick r
  match alookup r1.store fid with
  | none =>
    let n := nodeRecord { fid := fid, k := r1.k, history := [], isEvictable := false } t
    { r1 with store := sinsertNew fid n r1.store }
  | some n => { r1 with store := supdate fid (nodeRecord n t) r1.store }

/-- `LRUKReplacer::RecordAccess` including the `BUSTUB_ASSERT`: `none` means
the assertion fired and the process aborted. -/
def recordAccessChecked (r : Replacer) (fid : Int) : Option Replacer :=
  if recordAccessAssert r fid then some (recordAccess r fid.toNat) else none

/-- `LRUKReplacer::SetEvictable`: no-op for an unknown frame; on a real
transition flip the flag and move `curr_size_` by one (it is a `size_t`;
the decrement only ever happens when an evictable node exists, so
`curr_size_ ≥ 1` there). -/
def setEvictable (r : Replacer) (fid : Nat) (flag : Bool) : Replacer :=
  match alookup r.store fid with
  | none => r
  | some n =>
    if n.isEvictable ≠ flag then
      { r with
        store := supdate fid { n with isEvictable := flag } r.store
        currSize := if flag then r.currSize + 1 else r.currSize - 1 }
    else r

/-- `LRUKReplacer::Size`. -/
def replacerSize (r : Replacer) : Nat := r.currSize

/-! ## Buffer pool manager (`src/buffer/buffer_pool_manager.cpp`)

Page ids (`page_id_t`) are signed: `INVALID_PAGE_ID` is the sentinel `-1`
(spec §6: "typically -1 or 0; implementers pick one"; `FlushPage`'s
`page_id >= static_cast<int>(next_page_id_)` comparison fixes the signed
choice).  Frame ids inside the BPM are indices into `pages_` and are kept as
`Nat`; every id the BPM hands to the replacer is `< pool_size`, so the
unchecked `recordAccess` coincides with the asserted entry point there. -/

def INVALID_PAGE_ID : Int := -1

/-- One slot of the `pages_` array.  Modelled from the spec: `class Page`
lives in the missing header `page.h`; §3 gives its metadata (`page_id`,
`pin_count`, `is_dirty`, the byte buffer) and its initial state ("a frame
with `page_id == INVALID` has `pin_count == 0` and `is_dirty == false`",
bytes zeroed).  The per-page reader-writer latch guards only the byte buffer
and plays no role in the sequential bookkeeping modelled here. -/
structure Frame where
  pageId : Int
  pinCount : Nat
  isDirty : Bool
  data : PageData
deriving DecidableEq, Repr

/-- A freshly constructed `Page`. -/
def emptyFrame : Frame :=
  { pageId := INVALID_PAGE_ID, pinCount := 0, isDirty := false, data := zeroPage }

instance : Inhabited Frame := ⟨emptyFrame⟩

/-- The disk manager's store (external collaborator, spec §6): page-addressed
byte storage; a page never written reads back as all zeros. -/
abbrev Disk := List (Int × PageData)

def diskRead (d : Disk) (pid : Int) : PageData := (alookup d pid).getD zeroPage

def diskWrite (d : Disk) (pid : Int) (bytes : PageData) : Disk := ainsert d pid bytes

/-- The BPM state: the `pages_` array (length `pool_size_`), the page table,
the free list, the replacer, `next_page_id_`, and the disk store it sits in
front of.  Modelled from the spec: `next_page_id_` (missing header) starts
at 0 and "every new page allocation returns `next_page_id++`" (§3). -/
structure BPMState where
  pages : List Frame
  pageTable : List (Int × Nat)
  freeList : List Nat
  replacer : Replacer
  nextPageId : Int
  disk : Disk
deriving DecidableEq, Repr

/-- `BufferPoolManager::BufferPoolManager`: all frames fresh, every frame
index on the free list in ascending order. -/
def bpmInit (poolSize replacerK : Nat) : BPMState :=
  { pages := List.replicate poolSize emptyFrame
    pageTable := []
    freeList := List.range poolSize
    replacer := replacerInit poolSize replacerK
    nextPageId := 0
    disk := [] }

def getFrame (s : BPMState) (f : Nat) : Frame := s.pages.getD f emptyFrame

def setFrame (s : BPMState) (f : Nat) (fr : Frame) : BPMState :=
  { s with pages := s.pages.set f fr }

/-- `BufferPoolManager::GetAvailableFrameId`: pop the free list's front if
nonempty, else ask the replacer to evict. -/
def getAvailableFrameId (s : BPMState) : Option Nat × BPMState :=
  match s.freeList with
  | f :: rest => (some f, { s with freeList := rest })
  | [] =>
    let (res, r) := replacerEvict s.replacer
    (res, { s with replacer := r })

/-- `BufferPoolManager::PinPageToFrame`: `page_table_[page->page_id_] =
frame_id; page->pin_count_++; replacer_->RecordAccess(frame_id);
replacer_->SetEvictable(frame_id, false);`. -/
def pinPageToFrame (s : BPMState) (f : Nat) : BPMState :=
  let page := getFrame s f
  let s1 := { s with pageTable := ainsert s.pageTable page.pageId f }
  let s2 := setFrame s1 f { page with pinCount := page.pinCount + 1 }
  { s2 with replacer := setEvictable (recordAccess s2.replacer f) f false }

/-- `BufferPoolManager::NewPageHelper`: allocate `next_page_id_++`, zero the
frame, install the new id with `pin_count = 0`, `is_dirty = false`, then pin. -/
def newPageHelper (s : BPMState) (f : Nat) : Int × BPMState :=
  let pid := s.nextPageId
  let s1 := { s with nextPageId := s.nextPageId + 1 }
  let s2 := setFrame s1 f { pageId := pid, pinCount := 0, isDirty := false, data := zeroPage }
  (pid, pinPageToFrame s2 f)

/-- The dirty write-back performed before a frame is reused (`NewPage` /
`DoFetchPage` miss): if the chosen frame is dirty, write its current page's
bytes to disk. -/
def writeBackIfDirty (s : BPMState) (f : Nat) : BPMState :=
  let page := getFrame s f
  if page.isDirty then { s with disk := diskWrite s.disk page.pageId page.data } else s

/-- `BufferPoolManager::NewPage`: returns `some (page_id, frame_id)` on
success (`frame_id` standing in for the returned `Page *`). -/
def newPage (s : BPMState) : Option (Int × Nat) × BPMState :=
  match getAvailableFrameId s with
  | (none, s1) => (none, s1)
  | (some f, s1) =>
    let s2 := writeBackIfDirty s1 f
    let s3 := { s2 with pageTable := aerase s2.pageTable (getFrame s2 f).pageId }
    let (pid, s4) := newPageHelper s3 f
    (some (pid, f), s4)

/-- `BufferPoolManager::DoFetchPage` (the body of `FetchPage`): `none` for
the invalid id; on a hit mark the frame dirty and re-pin it; on a miss
acquire a frame, write back its prior page if dirty, drop the stale mapping,
read the requested page from disk, install it, and pin. -/
def fetchPage (s : BPMState) (pid : Int) : Option Nat × BPMState :=
  if pid = INVALID_PAGE_ID then (none, s)
  else
    match alookup s.pageTable pid with
    | some f =>
      let page := getFrame s f
      let s1 := setFrame s f { page with isDirty := true }
      (some f, pinPageToFrame s1 f)
    | none =>
      match getAvailableFrameId s with
      | (none, s1) => (none, s1)
      | (some f, s1) =>
        let s2 := writeBackIfDirty s1 f
        let s3 := { s2 with pageTable := aerase s2.pageTable (getFrame s2 f).pageId }
        let s4 := setFrame s3 f
          { pageId := pid, pinCount := 0, isDirty := false, data := diskRead s3.disk pid }
        (some f, pinPageToFrame s4 f)

/-- `BufferPoolManager::UnpinPage`.  Note the order taken from the source:
the frame's `is_dirty_` is assigned *before* the `pin_count_ <= 0` check, so
the pin-underflow failure path still overwrites the dirty flag. -/
def unpinPage (s : BPMState) (pid : Int) (isDirty : Bool) : Bool × BPMState :=
  match alookup s.pageTable pid with
  | none => (false, s)
  | some f =>
    let page := getFrame s f
    let s1 := setFrame s f { page with isDirty := isDirty }
    if page.pinCount = 0 then (false, s1)
    else
      let s2 := setFrame s f { page with isDirty := isDirty, pinCount := page.pinCount - 1 }
      if page.pinCount - 1 = 0 then
        (true, { s2 with replacer := setEvictable s2.replacer f true })
      else (true, s2)

/-- `BufferPoolManager::FlushPage`: reject the invalid id and ids at or past
`next_page_id_`; otherwise write the frame's bytes back unconditionally and
clear its dirty flag. -/
def flushPage (s : BPMState) (pid : Int) : Bool × BPMState :=
  if pid = INVALID_PAGE_ID ∨ pid ≥ s.nextPageId then (false, s)
  else
    match alookup s.pageTable pid with
    | none => (false, s)
    | some f =>
      let page := getFrame s f
      let s1 := { s with disk := diskWrite s.disk pid page.data }
      (true, setFrame s1 f { page with isDirty := false })

/-- `BufferPoolManager::DeletePage`: `true` (no-op) when not resident;
`false` (no-op) when pinned; otherwise drop the mapping, append the frame to
the free list, and reset the frame.  The replacer node is *not* removed. -/
def deletePage (s : BPMState) (pid : Int) : Bool × BPMState :=
  match alookup s.pageTable pid with
  | none => (true, s)
  | some f =>
    let page := getFrame s f
    if page.pinCount > 0 then (false, s)
    else
      let s1 := { s with pageTable := aerase s.pageTable pid, freeList := s.freeList ++ [f] }
      (true, setFrame s1 f emptyFrame)

/-- A consumer writing bytes through the pinned `Page *` it got back from
`new_page`/`fetch_page` (spec §8, round-trip law: "write bytes B into p's
frame").  It touches only the byte buffer; the dirty flag is the caller's
business at unpin time. -/
def writeData (s : BPMState) (pid : Int) (bytes : PageData) : BPMState :=
  match alookup s.pageTable pid with
  | none => s
  | some f =>
    let page := getFrame s f
    setFrame s f { page with data := bytes }

/-! ## Runs of the public interface

A program interacting with the BPM issues the public operations in sequence;
a guard drop is exactly an `unpin_page` call (spec §4.3).  `Op.writeData`
models a pinned client mutating its page's bytes. -/

inductive Op where
  | newOp : Op
  | fetchOp : Int → Op
  | unpinOp : Int → Bool → Op
  | flushOp : Int → Op
  | deleteOp : Int → Op
  | writeOp : Int → PageData → Op
deriving DecidableEq, Repr

def applyOp (s : BPMState) : Op → BPMState
  | Op.newOp => (newPage s).2
  | Op.fetchOp pid => (fetchPage s pid).2
  | Op.unpinOp pid d => (unpinPage s pid d).2
  | Op.flushOp pid => (flushPage s pid).2
  | Op.deleteOp pid => (deletePage s pid).2
  | Op.writeOp pid bytes => writeData s pid bytes

def runOps (s : BPMState) (ops : List Op) : BPMState := ops.foldl applyOp s

/-! ## Copy-on-write trie (`src/primer/trie.cpp`)

`TrieNode` / `TrieNodeWithValue<T>` live in the missing header `trie.h`;
their shape is fully determined by their uses in `trie.cpp`: a node holds a
`children_` map from `char` to child node and an `is_value_node_` flag, a
value node additionally holds `value_`, and `Clone()` is a polymorphic copy
(value and children preserved).  A node is modelled with an `Option α` value
(`is_value_node_ = value.isSome`); `Get<T>`'s `dynamic_cast` type test is the
identity at a single instantiated value type `α`.  `children_` is a
`std::map<char, …>` that is never iterated, modelled as an association
list; `shared_ptr` copies are value copies in the pure model, which is
exactly the copy-on-write discipline the C++ maintains. -/

inductive TNode (α : Type) : Type where
  | mk : Option α → List (Char × TNode α) → TNode α

def TNode.value {α : Type} : TNode α → Option α
  | TNode.mk v _ => v

def TNode.children {α : Type} : TNode α → List (Char × TNode α)
  | TNode.mk _ c => c

/-- `node->children_.find(c)` / `children_.at(c)` guarded by `count`. -/
def childLookup {α : Type} (n : TNode α) (c : Char) : Option (TNode α) :=
  alookup n.children c

/-- `new_node->children_[c] = child`. -/
def setChild {α : Type} (n : TNode α) (c : Char) (child : TNode α) : TNode α :=
  TNode.mk n.value (ainsert n.children c child)

/-- `new_node->children_.erase(c)`. -/
def eraseChild {α : Type} (n : TNode α) (c : Char) : TNode α :=
  TNode.mk n.value (aerase n.children c)

/-- `CopyCreateNewNode(old_node, has_value, value)`: the four cases of the
source, with `Clone()` the identity on the modelled node. -/
def copyCreateNewNode {α : Type} (old : Option (TNode α)) (hasValue : Bool)
    (v : α) : TNode α :=
  match old, hasValue with
  | none, true => TNode.mk (some v) []
  | none, false => TNode.mk none []
  | some n, true => TNode.mk (some v) n.children
  | some n, false => n

/-- The anonymous-namespace `Insert` helper: recursion on the remaining key
stands in for the `index` parameter. -/
def insertNode {α : Type} (node : Option (TNode α)) (key : List Char) (v : α) :
    TNode α :=
  match key with
  | [] => copyCreateNewNode node true v
  | c :: rest =>
    let child := insertNode (node.bind (fun n => childLookup n c)) rest v
    let newNode := copyCreateNewNode node false v
    setChild newNode c child

/-- The anonymous-namespace `RemoveRecursive` helper. -/
def removeRecursive {α : Type} (node : Option (TNode α)) (key : List Char) :
    Option (TNode α) :=
  match node with
  | none => none
  | some n =>
    match key with
    | [] =>
      if n.children.isEmpty then none
      else some (TNode.mk none n.children)
    | c :: rest =>
      let child := removeRecursive (childLookup n c) rest
      match child with
      | some ch => some (setChild n c ch)
      | none => some (eraseChild n c)

/-- The anonymous-namespace `Search` helper: walk the key; at the end return
the node only if it is a value node. -/
def searchNode {α : Type} (n : TNode α) (key : List Char) : Option (TNode α) :=
  match key with
  | [] => if n.value.isSome then some n else none
  | c :: rest =>
    match childLookup n c with
    | none => none
    | some ch => searchNode ch rest

/-- `class Trie`: an immutable root pointer, possibly null. -/
structure Trie (α : Type) where
  root : Option (TNode α)

/-- `Trie::Get<T>` — null root or failed search or non-value node give
`nullptr`; otherwise the stored value. -/
def trieGet {α : Type} (t : Trie α) (key : List Char) : Option α :=
  match t.root with
  | none => none
  | some r =>
    match searchNode r key with
    | none => none
    | some n => n.value

/-- `Trie::Put<T>`. -/
def triePut {α : Type} (t : Trie α) (key : List Char) (v : α) : Trie α :=
  ⟨some (insertNode t.root key v)⟩

/-- `Trie::Remove`. -/
def trieRemove {α : Type} (t : Trie α) (key : List Char) : Trie α :=
  ⟨removeRecursive t.root key⟩

/-! ## Trie theorems -/

/-- `Get` of a (possibly null) node pointer: search, then the value. -/
def nodeGet {α : Type} (o : Option (TNode α)) (key : List Char) : Option α :=
  match o with
  | none => none
  | some r =>
    match searchNode r key with
    | none => none
    | some n => n.value

theorem trieGet_eq_nodeGet {α : Type} (t : Trie α) (key : List Char) :
    trieGet t key = nodeGet t.root key := rfl

theorem nodeGet_insertNode {α : Type} (key : List Char) (node : Option (TNode α))
    (v : α) : nodeGet (some (insertNode node key v)) key = some v := by
  induction key generalizing node with
  | nil =>
    cases node with
    | none => rfl
    | some n => rfl
  | cons c rest ih =>
    have hlook : childLookup (insertNode node (c :: rest) v) c =
        some (insertNode (node.bind (fun n => childLookup n c)) rest v) := by
      rw [insertNode]
      show alookup (ainsert _ c _) c = _
      exact alookup_ainsert_self _ c _
    have := ih (node.bind (fun n => childLookup n c))
    rw [nodeGet, searchNode, hlook]
    rw [nodeGet] at this
    exact this

theorem nodeGet_removeRecursive {α : Type} (key : List Char)
    (node : Option (TNode α)) : nodeGet (removeRecursive node key) key = none := by
  induction key generalizing node with
  | nil =>
    cases node with
    | none => rfl
    | some n =>
      rw [removeRecursive]
      by_cases h : n.children.isEmpty
      · rw [if_pos h]; rfl
      · rw [if_neg h]; rfl
  | cons c rest ih =>
    cases node with
    | none => rfl
    | some n =>
      rw [removeRecursive]
      cases hch : removeRecursive (childLookup n c) rest with
      | some ch =>
        have hlook : childLookup (setChild n c ch) c = some ch :=
          alookup_ainsert_self _ c _
        have := ih (childLookup n c)
        rw [hch] at this
        simpa [nodeGet, searchNode, hlook] using this
      | none =>
        have hlook : childLookup (eraseChild n c) c = none :=
          alookup_aerase_self _ c
        simp [nodeGet, searchNode, hlook]

/-! ## Basic state lemmas -/

theorem list_set_getD_self {α : Type} (l : List α) (n : Nat) (d : α)
    (h : n < l.length) : l.set n (l.getD n d) = l := by
  induction l generalizing n with
  | nil => simp at h
  | cons a t ih =>
    cases n with
    | zero => simp
    | succ m =>
      simp only [List.getD_eq_getElem?_getD, List.getElem?_cons_succ, List.set]
      have := ih m (by simpa using h)
      rw [List.getD_eq_getElem?_getD] at this
      rw [this]

theorem getFrame_setFrame_self (s : BPMState) (f : Nat) (fr : Frame)
    (h : f < s.pages.length) : getFrame (setFrame s f fr) f = fr := by
  simp [getFrame, setFrame, List.getD_eq_getElem?_getD, List.getElem?_set_self h]

theorem getFrame_setFrame_ne (s : BPMState) (f g : Nat) (fr : Frame)
    (h : f ≠ g) : getFrame (setFrame s f fr) g = getFrame s g := by
  simp [getFrame, setFrame, List.getD_eq_getElem?_getD, List.getElem?_set_ne h]

theorem setFrame_getFrame_self (s : BPMState) (f : Nat) (h : f < s.pages.length) :
    setFrame s f (getFrame s f) = s := by
  show { s with pages := s.pages.set f (s.pages.getD f emptyFrame) } = s
  rw [list_set_getD_self s.pages f emptyFrame h]

theorem aerase_of_alookup_none {α β : Type} [DecidableEq α]
    (l : List (α × β)) (k : α) (h : alookup l k = none) : aerase l k = l := by
  induction l with
  | nil => rfl
  | cons kv rest ih =>
    obtain ⟨a, b⟩ := kv
    rw [alookup_cons] at h
    by_cases ha : a = k
    · rw [if_pos ha] at h; cases h
    · rw [if_neg ha] at h
      rw [aerase_cons_ne b rest ha, ih h]

theorem aerase_aerase_self {α β : Type} [DecidableEq α]
    (l : List (α × β)) (k : α) : aerase (aerase l k) k = aerase l k :=
  aerase_of_alookup_none _ k (alookup_aerase_self l k)

theorem ainsert_ainsert_self {α β : Type} [DecidableEq α]
    (l : List (α × β)) (k : α) (v : β) :
    ainsert (ainsert l k v) k v = ainsert l k v := by
  show (k, v) :: aerase ((k, v) :: aerase l k) k = (k, v) :: aerase l k
  rw [aerase_cons_eq v (aerase l k) rfl, aerase_aerase_self]

/-! ## Claim theorems: trie -/

/-- C9: for every trie `t`, key `k` and value `v`, `t.Put(k, v).Get(k)`
returns (a non-null pointer to) a value equal to `v`. -/
theorem trie_put_get {α : Type} (t : Trie α) (key : List Char) (v : α) :
    trieGet (triePut t key v) key = some v := by
  rw [trieGet_eq_nodeGet]
  exact nodeGet_insertNode key t.root v

/-- C10: for every trie `t` and key `k`, `t.Remove(k).Get(k)` returns
`nullptr`: after `Remove`, no value is associated with `k`.  (`t` itself is
untouched by construction: `Remove` builds a fresh root and the pure
embedding — mirroring the copy-on-write discipline of the C++ — cannot
mutate the original.) -/
theorem trie_remove_get {α : Type} (t : Trie α) (key : List Char) :
    trieGet (trieRemove t key) key = none := by
  rw [trieGet_eq_nodeGet]
  exact nodeGet_removeRecursive key t.root

/-! ## Claim theorems: per-operation BPM contracts -/

/-- C3 (amended): when `unpin_page` fails because the page is not resident
the state is unchanged; when it fails because the pin count is already 0,
everything is unchanged *except* that the frame's `is_dirty` flag has been
overwritten with the argument (the source assigns `is_dirty_` before the
pin-count check). -/
theorem unpin_fail_state (s : BPMState) (pid : Int) (d : Bool) :
    (alookup s.pageTable pid = none → unpinPage s pid d = (false, s)) ∧
    (∀ f, alookup s.pageTable pid = some f → (getFrame s f).pinCount = 0 →
      unpinPage s pid d = (false, setFrame s f { getFrame s f with isDirty := d })) := by
  constructor
  · intro h
    rw [unpinPage, h]
  · intro f h h0
    rw [unpinPage, h]
    simp [h0]

def c3State : BPMState := runOps (bpmInit 1 2) [Op.newOp, Op.unpinOp 0 true]

/-- C3 counterexample: in the reachable one-frame state where page 0 is
resident, unpinned, and dirty, `unpin_page(0, false)` returns `false` yet
flips the frame's `is_dirty` from `true` to `false` — the failure path is
not a no-op. -/
theorem unpin_fail_counterexample :
    (unpinPage c3State 0 false).1 = false ∧
    (getFrame c3State 0).isDirty = true ∧
    (getFrame (unpinPage c3State 0 false).2 0).isDirty = false := by
  refine ⟨rfl, rfl, rfl⟩

/-- Witness for `unpin_fail_state` at the concrete state `c3State`. -/
theorem unpin_fail_witness :
    unpinPage c3State 0 false =
      (false, setFrame c3State 0 { getFrame c3State 0 with isDirty := false }) :=
  (unpin_fail_state c3State 0 false).2 0 rfl rfl

/-- C7: `delete_page` returns `true` and changes nothing when the page is
not resident; returns `false` and changes nothing when the page is resident
and pinned; otherwise drops the page-table entry, appends the frame to the
free list, resets the frame (`page_id = INVALID`, `pin_count = 0`,
`is_dirty = false`, zeroed bytes) and returns `true`. -/
theorem delete_page_spec (s : BPMState) (pid : Int) :
    (alookup s.pageTable pid = none → deletePage s pid = (true, s)) ∧
    (∀ f, alookup s.pageTable pid = some f → (getFrame s f).pinCount > 0 →
      deletePage s pid = (false, s)) ∧
    (∀ f, alookup s.pageTable pid = some f → (getFrame s f).pinCount = 0 →
      deletePage s pid = (true, setFrame
        { s with pageTable := aerase s.pageTable pid, freeList := s.freeList ++ [f] }
        f emptyFrame)) := by
  refine ⟨fun h => ?_, fun f h hpin => ?_, fun f h hpin => ?_⟩
  · rw [deletePage, h]
  · rw [deletePage, h]
    simp [hpin]
  · rw [deletePage, h]
    simp [hpin]

def c7StatePinned : BPMState := runOps (bpmInit 1 2) [Op.newOp]

def c7StateUnpinned : BPMState := runOps (bpmInit 1 2) [Op.newOp, Op.unpinOp 0 false]

/-- Witness for `delete_page_spec`, exercising all three branches on
concrete reachable states. -/
theorem delete_page_spec_witness :
    deletePage (bpmInit 1 2) 5 = (true, bpmInit 1 2) ∧
    deletePage c7StatePinned 0 = (false, c7StatePinned) ∧
    (deletePage c7StateUnpinned 0).1 = true := by
  refine ⟨(delete_page_spec (bpmInit 1 2) 5).1 rfl,
    (delete_page_spec c7StatePinned 0).2.1 0 rfl (by decide), ?_⟩
  rw [(delete_page_spec c7StateUnpinned 0).2.2 0 rfl rfl]

/-- C8: flushing a resident page with a valid id below `next_page_id`
succeeds; flushing it again with no intervening mutation returns `true`,
leaves the state exactly as it was after the first flush (in particular the
same bytes sit on disk), and the frame's `is_dirty` stays `false`. -/
theorem flush_page_idempotent (s : BPMState) (pid : Int) (f : Nat)
    (hpid : pid ≠ INVALID_PAGE_ID) (hlt : pid < s.nextPageId)
    (hres : alookup s.pageTable pid = some f) (hf : f < s.pages.length) :
    (flushPage s pid).1 = true ∧
    flushPage (flushPage s pid).2 pid = (true, (flushPage s pid).2) ∧
    diskRead (flushPage s pid).2.disk pid = (getFrame s f).data ∧
    (getFrame (flushPage s pid).2 f).isDirty = false := by
  have hcond : ¬(pid = INVALID_PAGE_ID ∨ pid ≥ s.nextPageId) := by
    push_neg
    exact ⟨hpid, hlt⟩
  have h1 : flushPage s pid =
      (true, setFrame { s with disk := diskWrite s.disk pid (getFrame s f).data }
        f { getFrame s f with isDirty := false }) := by
    rw [flushPage, if_neg hcond, hres]
  set page := getFrame s f with hpage
  set s1 := setFrame { s with disk := diskWrite s.disk pid page.data }
    f { page with isDirty := false } with hs1
  have hlen : s1.pages.length = s.pages.length := by
    simp [hs1, setFrame]
  have hnext : s1.nextPageId = s.nextPageId := rfl
  have htable : s1.pageTable = s.pageTable := rfl
  have hdisk : s1.disk = diskWrite s.disk pid page.data := rfl
  have hgf : getFrame s1 f = { page with isDirty := false } :=
    getFrame_setFrame_self _ f _ hf
  have h2 : flushPage s1 pid = (true, setFrame
      { s1 with disk := diskWrite s1.disk pid (getFrame s1 f).data }
      f { getFrame s1 f with isDirty := false }) := by
    rw [flushPage, if_neg (by rw [hnext]; exact hcond), htable, hres]
  refine ⟨by rw [h1], ?_, ?_, ?_⟩
  · rw [h1]
    rw [h2, hgf]
    have hdd : diskWrite s1.disk pid page.data = diskWrite s.disk pid page.data := by
      rw [hdisk]
      exact ainsert_ainsert_self _ _ _
    have heta : ({ page with isDirty := false } : Frame) =
        { ({ page with isDirty := false } : Frame) with isDirty := false } := rfl
    have : ({ s1 with disk := diskWrite s1.disk pid page.data } : BPMState) = s1 := by
      show ({ s1 with disk := diskWrite s1.disk pid page.data } : BPMState) =
        { s1 with disk := s1.disk }
      rw [hdd, hdisk]
    rw [this]
    have : setFrame s1 f ({ page with isDirty := false } : Frame) = s1 := by
      conv_lhs => rw [← hgf]
      exact setFrame_getFrame_self s1 f (by rw [hlen]; exact hf)
    rw [this]
  · rw [h1]
    show diskRead (diskWrite s.disk pid page.data) pid = page.data
    simp [diskRead, diskWrite, alookup_ainsert_self]
  · rw [h1]
    show (getFrame s1 f).isDirty = false
    rw [hgf]

def c8State : BPMState := runOps (bpmInit 1 2) [Op.newOp]

/-- Witness for `flush_page_idempotent` on a concrete reachable state. -/
theorem flush_page_idempotent_witness :
    (flushPage c8State 0).1 = true ∧
    flushPage (flushPage c8State 0).2 0 = (true, (flushPage c8State 0).2) ∧
    diskRead (flushPage c8State 0).2.disk 0 = (getFrame c8State 0).data ∧
    (getFrame (flushPage c8State 0).2 0).isDirty = false :=
  flush_page_idempotent c8State 0 0 (by decide) (by decide) rfl (by decide)

/-- C5: `RecordAccess`'s `BUSTUB_ASSERT` does *not* abort on `frame_id =
num_frames`: with `num_frames = 3`, frame id 3 is outside the frame universe
`[0, 3)` yet the checked entry point succeeds and records the access (the
guard reads `frame_id <= replacer_size_`, an off-by-one against the spec's
range `[0, num_frames)`). -/
theorem record_access_assert_off_by_one :
    recordAccessChecked (replacerInit 3 2) 3 =
      some (recordAccess (replacerInit 3 2) 3) ∧
    alookup (recordAccess (replacerInit 3 2) 3).store 3 =
      some { fid := 3, k := 2, history := [0], isEvictable := false } ∧
    ¬((3 : Nat) < (replacerInit 3 2).numFrames) := by
  refine ⟨rfl, rfl, by decide⟩

/-! ## Claim theorems: LRU-K eviction -/

/-- Number of evictable nodes in a store; `curr_size_` tracks this. -/
def countEvictable (l : List (Nat × LRUKNode)) : Nat :=
  (l.filter (fun kv => kv.2.isEvictable)).length

theorem countEvictable_eq_zero {l : List (Nat × LRUKNode)} :
    countEvictable l = 0 ↔ ∀ kv ∈ l, kv.2.isEvictable = false := by
  rw [countEvictable, List.length_eq_zero, List.filter_eq_nil_iff]
  simp

theorem evictScan_go (t : Nat) (entries : List (Nat × LRUKNode)) :
    ∀ (acc : Option (Nat × LRUKNode)),
    (∀ a, acc = some a → a.2.isEvictable = true) →
    (entries.foldl (evictStep t) acc = none ↔
       acc = none ∧ ∀ kv ∈ entries, kv.2.isEvictable = false) ∧
    (∀ b, entries.foldl (evictStep t) acc = some b →
       b.2.isEvictable = true ∧
       (acc = some b ∨ b ∈ entries) ∧
       (∀ kv ∈ entries, kv.2.isEvictable = true →
         kDistance kv.2 t ≤ kDistance b.2 t ∧
         (kDistance b.2 t = ⊤ → kDistance kv.2 t = ⊤ → headTS b.2 ≤ headTS kv.2)) ∧
       (∀ a, acc = some a →
         kDistance a.2 t ≤ kDistance b.2 t ∧
         (kDistance b.2 t = ⊤ → kDistance a.2 t = ⊤ → headTS b.2 ≤ headTS a.2))) := by
  induction entries with
  | nil =>
    intro acc hacc
    refine ⟨by simp, ?_⟩
    intro b hb
    simp only [List.foldl_nil] at hb
    refine ⟨hacc b hb, Or.inl hb, by simp, ?_⟩
    intro a ha
    rw [hb] at ha
    cases ha
    exact ⟨le_refl _, fun _ _ => le_refl _⟩
  | cons kv rest ih =>
    intro acc hacc
    rw [List.foldl_cons]
    by_cases hkv : kv.2.isEvictable = true
    · rcases acc with - | a0
      · have hstep : evictStep t none kv = some kv := by
          simp [evictStep, hkv]
        rw [hstep]
        obtain ⟨ih1, ih2⟩ := ih (some kv) (by intro a ha; cases ha; exact hkv)
        constructor
        · rw [ih1]
          constructor
          · rintro ⟨h, -⟩; cases h
          · rintro ⟨-, hall⟩
            exact absurd (hall kv (List.mem_cons_self _ _)) (by simp [hkv])
        · intro b hb
          obtain ⟨hev, hmem, hrest, haccc⟩ := ih2 b hb
          refine ⟨hev, ?_, ?_, ?_⟩
          · rcases hmem with h | h
            · cases h; exact Or.inr (List.mem_cons_self _ _)
            · exact Or.inr (List.mem_cons_of_mem _ h)
          · intro x hx hxe
            rcases List.mem_cons.mp hx with rfl | hx'
            · exact haccc x rfl
            · exact hrest x hx' hxe
          · intro a ha; cases ha
      · have ha0 : a0.2.isEvictable = true := hacc a0 rfl
        by_cases hc : (kDistance kv.2 t > kDistance a0.2 t ∨
            (kDistance kv.2 t = kDistance a0.2 t ∧ kDistance a0.2 t = ⊤ ∧
              headTS kv.2 < headTS a0.2))
        · have hstep : evictStep t (some a0) kv = some kv := by
            simp only [evictStep, hkv, Bool.not_true, Bool.false_eq_true,
              if_false]
            rw [if_pos hc]
          rw [hstep]
          obtain ⟨ih1, ih2⟩ := ih (some kv) (by intro a ha; cases ha; exact hkv)
          constructor
          · rw [ih1]
            constructor
            · rintro ⟨h, -⟩; cases h
            · rintro ⟨h, -⟩; cases h
          · intro b hb
            obtain ⟨hev, hmem, hrest, haccc⟩ := ih2 b hb
            have hkvb := haccc kv rfl
            refine ⟨hev, ?_, ?_, ?_⟩
            · rcases hmem with h | h
              · cases h; exact Or.inr (List.mem_cons_self _ _)
              · exact Or.inr (List.mem_cons_of_mem _ h)
            · intro x hx hxe
              rcases List.mem_cons.mp hx with rfl | hx'
              · exact haccc x rfl
              · exact hrest x hx' hxe
            · intro a ha
              cases ha
              rcases hc with hlt | ⟨heq, htop, hhd⟩
              · refine ⟨le_trans (le_of_lt hlt) hkvb.1, ?_⟩
                intro hbtop hatop
                rw [hatop] at hlt
                exact absurd hlt not_top_lt
              · refine ⟨heq ▸ hkvb.1, ?_⟩
                intro hbtop hatop
                have hkvtop : kDistance kv.2 t = ⊤ := heq.trans htop
                exact le_trans (hkvb.2 hbtop hkvtop) (le_of_lt hhd)
        · have hstep : evictStep t (some a0) kv = some a0 := by
            simp only [evictStep, hkv, Bool.not_true, Bool.false_eq_true,
              if_false]
            rw [if_neg hc]
          rw [hstep]
          obtain ⟨ih1, ih2⟩ := ih (some a0) (by intro a ha; cases ha; exact ha0)
          constructor
          · rw [ih1]
            constructor
            · rintro ⟨h, -⟩; cases h
            · rintro ⟨h, -⟩; cases h
          · intro b hb
            obtain ⟨hev, hmem, hrest, haccc⟩ := ih2 b hb
            have hab := haccc a0 rfl
            obtain ⟨hc1, hc2⟩ := not_or.mp hc
            have hle : kDistance kv.2 t ≤ kDistance a0.2 t := not_lt.mp hc1
            refine ⟨hev, ?_, ?_, ?_⟩
            · rcases hmem with h | h
              · exact Or.inl h
              · exact Or.inr (List.mem_cons_of_mem _ h)
            · intro x hx hxe
              rcases List.mem_cons.mp hx with rfl | hx'
              · refine ⟨le_trans hle hab.1, ?_⟩
                intro hbtop hxtop
                have hvtop : kDistance a0.2 t = ⊤ := top_le_iff.mp (hxtop ▸ hle)
                have hhd : ¬headTS x.2 < headTS a0.2 := by
                  intro hlt
                  exact hc2 ⟨hxtop.trans hvtop.symm, hvtop, hlt⟩
                exact le_trans (hab.2 hbtop hvtop) (not_lt.mp hhd)
              · exact hrest x hx' hxe
            · intro a ha
              cases ha
              exact hab
    · have hstep : evictStep t acc kv = acc := by
        simp [evictStep, hkv]
      rw [hstep]
      obtain ⟨ih1, ih2⟩ := ih acc hacc
      constructor
      · rw [ih1, List.forall_mem_cons]
        simp only [Bool.not_eq_true] at hkv
        simp [hkv]
      · intro b hb
        obtain ⟨hev, hmem, hrest, haccc⟩ := ih2 b hb
        refine ⟨hev, ?_, ?_, haccc⟩
        · rcases hmem with h | h
          · exact Or.inl h
          · exact Or.inr (List.mem_cons_of_mem _ h)
        · intro x hx hxe
          rcases List.mem_cons.mp hx with rfl | hx'
          · rw [hxe] at hkv; cases hkv rfl
          · exact hrest x hx' hxe

/-- C2 (amended): on a well-formed replacer state (`curr_size_` equals the
number of evictable nodes), `evict` returns `None` iff no evictable node
exists; on success it removes the chosen node and decrements `curr_size_`,
and the chosen node is an evictable node of *largest* backward K-distance at
the current time — but ties at +∞ are broken by the smallest
*most-recently-recorded* timestamp (`history_.front()` of the newest-first
history), not the earliest-recorded one. -/
theorem evict_spec (r : Replacer) (hwf : r.currSize = countEvictable r.store) :
    ((replacerEvict r).1 = none ↔ ∀ kv ∈ r.store, kv.2.isEvictable = false) ∧
    (∀ fid, (replacerEvict r).1 = some fid →
      ∃ n, (fid, n) ∈ r.store ∧ n.isEvictable = true ∧
        (∀ kv ∈ r.store, kv.2.isEvictable = true →
          kDistance kv.2 r.clock ≤ kDistance n r.clock ∧
          (kDistance n r.clock = ⊤ → kDistance kv.2 r.clock = ⊤ →
            headTS n ≤ headTS kv.2)) ∧
        (replacerEvict r).2.store = aerase r.store fid ∧
        (replacerEvict r).2.currSize = r.currSize - 1) := by
  obtain ⟨hgo1, hgo2⟩ := evictScan_go r.clock r.store none (by intro a ha; cases ha)
  by_cases hz : r.currSize = 0
  · have hall : ∀ kv ∈ r.store, kv.2.isEvictable = false :=
      countEvictable_eq_zero.mp (hwf ▸ hz)
    have hres : replacerEvict r = (none, { r with clock := r.clock + 1 }) := by
      rw [replacerEvict, tick]
      simp [hz]
    constructor
    · rw [hres]
      exact iff_of_true rfl hall
    · intro fid hfid
      rw [hres] at hfid
      cases hfid
  · cases hscan : r.store.foldl (evictStep r.clock) none with
    | none =>
      have hall : ∀ kv ∈ r.store, kv.2.isEvictable = false :=
        ((hgo1.mp hscan).2)
      have hres : replacerEvict r = (none, { r with clock := r.clock + 1 }) := by
        rw [replacerEvict, tick]
        simp only [hz, if_false, evictScan]
        rw [hscan]
      constructor
      · rw [hres]
        exact iff_of_true rfl hall
      · intro fid hfid
        rw [hres] at hfid
        cases hfid
    | some b =>
      obtain ⟨hev, hmem, hcmp, -⟩ := hgo2 b hscan
      have hres : replacerEvict r = (some b.1,
          { r with
            clock := r.clock + 1
            store := aerase r.store b.1
            currSize := r.currSize - 1 }) := by
        rw [replacerEvict, tick]
        simp only [hz, if_false, evictScan]
        rw [hscan]
      constructor
      · rw [hres]
        constructor
        · intro h; cases h
        · intro hall
          rcases hmem with h | h
          · cases h
          · rw [hall b h] at hev; cases hev
      · intro fid hfid
        rw [hres] at hfid
        cases hfid
        refine ⟨b.2, hmem.resolve_left (by intro h; cases h), hev, hcmp, by rw [hres], by rw [hres]⟩

def c2GoodState : Replacer :=
  setEvictable (recordAccess (recordAccess (replacerInit 2 2) 0) 1) 0 true

/-- Witness for `evict_spec` on a concrete well-formed replacer state (two
recorded frames, frame 0 evictable): the victim is frame 0. -/
theorem evict_spec_witness :
    c2GoodState.currSize = countEvictable c2GoodState.store ∧
    ((replacerEvict c2GoodState).1 = none ↔
      ∀ kv ∈ c2GoodState.store, kv.2.isEvictable = false) := by
  refine ⟨by decide, (evict_spec c2GoodState (by decide)).1⟩

def c2TieState : Replacer :=
  setEvictable (setEvictable
    (recordAccess (recordAccess (recordAccess (recordAccess
      (replacerInit 2 3) 0) 1) 1) 0) 0 true) 1 true

/-- C2 counterexample: with `k = 3`, two evictable nodes whose K-distances
are both +∞ — frame 0 with history `[3, 0]` (earliest-recorded timestamp 0)
and frame 1 with history `[2, 1]` (earliest-recorded timestamp 1).  The
claim's tie-break (smallest earliest-recorded timestamp) would pick frame 0;
the code compares `history_.front()` (the newest timestamp) and evicts
frame 1. -/
theorem evict_tiebreak_counterexample :
    (replacerEvict c2TieState).1 = some 1 ∧
    alookup c2TieState.store 0 =
      some { fid := 0, k := 3, history := [3, 0], isEvictable := true } ∧
    alookup c2TieState.store 1 =
      some { fid := 1, k := 3, history := [2, 1], isEvictable := true } ∧
    kDistance { fid := 0, k := 3, history := [3, 0], isEvictable := true }
      c2TieState.clock = ⊤ ∧
    kDistance { fid := 1, k := 3, history := [2, 1], isEvictable := true }
      c2TieState.clock = ⊤ ∧
    [3, 0].getLast? = some 0 ∧ [2, 1].getLast? = some 1 ∧ (0 : Nat) < 1 := by
  refine ⟨by decide, by decide, by decide, by decide, by decide, rfl, rfl, by decide⟩

/-! ## Node-store lemmas

Lookup, membership, ordering and counting facts about `sinsertNew`,
`supdate` and `aerase` on the replacer's sorted store. -/

theorem alookup_none_of_forall_ne {α β : Type} [DecidableEq α]
    {l : List (α × β)} {k : α} (h : ∀ kv ∈ l, kv.1 ≠ k) : alookup l k = none := by
  induction l with
  | nil => rfl
  | cons kv rest ih =>
    obtain ⟨a, b⟩ := kv
    rw [alookup_cons, if_neg (h (a, b) (List.mem_cons_self _ _))]
    exact ih (fun kv hkv => h kv (List.mem_cons_of_mem _ hkv))

theorem forall_ne_of_alookup_none {α β : Type} [DecidableEq α]
    {l : List (α × β)} {k : α} (h : alookup l k = none) : ∀ kv ∈ l, kv.1 ≠ k := by
  induction l with
  | nil => intro kv hkv; cases hkv
  | cons kv rest ih =>
    obtain ⟨a, b⟩ := kv
    rw [alookup_cons] at h
    by_cases ha : a = k
    · rw [if_pos ha] at h; cases h
    · rw [if_neg ha] at h
      intro x hx
      rcases List.mem_cons.mp hx with rfl | hx'
      · exact ha
      · exact ih h x hx'

theorem alookup_sinsertNew_self (fid : Nat) (n : LRUKNode)
    (l : List (Nat × LRUKNode)) : alookup (sinsertNew fid n l) fid = some n := by
  induction l with
  | nil => simp [sinsertNew, alookup]
  | cons kv rest ih =>
    obtain ⟨f, m⟩ := kv
    rw [sinsertNew]
    by_cases h1 : fid < f
    · rw [if_pos h1, alookup_cons, if_pos rfl]
    · rw [if_neg h1]
      by_cases h2 : fid = f
      · rw [if_pos h2, alookup_cons, if_pos rfl]
      · rw [if_neg h2, alookup_cons, if_neg (fun h => h2 h.symm)]
        exact ih

theorem alookup_sinsertNew_ne (fid g : Nat) (n : LRUKNode)
    (l : List (Nat × LRUKNode)) (hg : g ≠ fid) :
    alookup (sinsertNew fid n l) g = alookup l g := by
  induction l with
  | nil =>
    show alookup [(fid, n)] g = none
    rw [alookup_cons, if_neg (fun h : fid = g => hg h.symm)]
    rfl
  | cons kv rest ih =>
    obtain ⟨f, m⟩ := kv
    rw [sinsertNew]
    by_cases h1 : fid < f
    · rw [if_pos h1, alookup_cons, if_neg (fun h => hg h.symm)]
    · rw [if_neg h1]
      by_cases h2 : fid = f
      · rw [if_pos h2, alookup_cons, if_neg (fun h => hg h.symm), alookup_cons,
          if_neg (fun h => hg (h2 ▸ h).symm)]
      · rw [if_neg h2, alookup_cons, alookup_cons, ih]

theorem mem_sinsertNew {fid : Nat} {n : LRUKNode} {l : List (Nat × LRUKNode)}
    {kv : Nat × LRUKNode} (h : kv ∈ sinsertNew fid n l) :
    kv = (fid, n) ∨ kv ∈ l := by
  induction l with
  | nil =>
    rw [sinsertNew] at h
    rcases List.mem_cons.mp h with h | h
    · exact Or.inl h
    · cases h
  | cons fm rest ih =>
    obtain ⟨f, m⟩ := fm
    rw [sinsertNew] at h
    by_cases h1 : fid < f
    · rw [if_pos h1] at h
      rcases List.mem_cons.mp h with h | h
      · exact Or.inl h
      · exact Or.inr h
    · rw [if_neg h1] at h
      by_cases h2 : fid = f
      · rw [if_pos h2] at h
        rcases List.mem_cons.mp h with h | h
        · exact Or.inl h
        · exact Or.inr (List.mem_cons_of_mem _ h)
      · rw [if_neg h2] at h
        rcases List.mem_cons.mp h with h | h
        · exact Or.inr (h ▸ List.mem_cons_self _ _)
        · rcases ih h with h' | h'
          · exact Or.inl h'
          · exact Or.inr (List.mem_cons_of_mem _ h')

theorem alookup_supdate_self (fid : Nat) (n : LRUKNode)
    (l : List (Nat × LRUKNode)) :
    alookup (supdate fid n l) fid = (alookup l fid).map (fun _ => n) := by
  induction l with
  | nil => rfl
  | cons kv rest ih =>
    obtain ⟨f, m⟩ := kv
    rw [supdate, List.map_cons]
    by_cases h : f = fid
    · rw [if_pos h]
      rw [alookup_cons, if_pos rfl, alookup_cons, if_pos h]
      rfl
    · rw [if_neg h]
      rw [alookup_cons, if_neg h, alookup_cons, if_neg h]
      exact ih

theorem alookup_supdate_ne (fid g : Nat) (n : LRUKNode)
    (l : List (Nat × LRUKNode)) (hg : g ≠ fid) :
    alookup (supdate fid n l) g = alookup l g := by
  induction l with
  | nil => rfl
  | cons kv rest ih =>
    obtain ⟨f, m⟩ := kv
    show alookup ((if f = fid then (fid, n) else (f, m)) :: supdate fid n rest) g =
      alookup ((f, m) :: rest) g
    by_cases h : f = fid
    · rw [if_pos h, alookup_cons, alookup_cons,
        if_neg (fun he : fid = g => hg he.symm),
        if_neg (fun he : f = g => hg ((h ▸ he : (fid : Nat) = g)).symm)]
      exact ih
    · rw [if_neg h, alookup_cons, alookup_cons, ih]

theorem mem_supdate {fid : Nat} {n : LRUKNode} {l : List (Nat × LRUKNode)}
    {kv : Nat × LRUKNode} (h : kv ∈ supdate fid n l) :
    kv = (fid, n) ∨ (kv ∈ l ∧ kv.1 ≠ fid) := by
  rw [supdate] at h
  obtain ⟨x, hx, hxe⟩ := List.mem_map.mp h
  by_cases hk : x.1 = fid
  · rw [if_pos hk] at hxe
    exact Or.inl hxe.symm
  · rw [if_neg hk] at hxe
    exact Or.inr ⟨hxe ▸ hx, hxe ▸ hk⟩

theorem supdate_of_forall_ne {fid : Nat} {n : LRUKNode}
    {l : List (Nat × LRUKNode)} (h : ∀ kv ∈ l, kv.1 ≠ fid) :
    supdate fid n l = l := by
  induction l with
  | nil => rfl
  | cons kv rest ih =>
    rw [supdate, List.map_cons, if_neg (h kv (List.mem_cons_self _ _))]
    rw [supdate] at ih
    rw [ih (fun x hx => h x (List.mem_cons_of_mem _ hx))]

/-! Sortedness of the store. -/

theorem sorted_supdate {fid : Nat} {n : LRUKNode} {l : List (Nat × LRUKNode)}
    (h : List.Pairwise (fun a b => a.1 < b.1) l) :
    List.Pairwise (fun a b => a.1 < b.1) (supdate fid n l) := by
  rw [supdate, List.pairwise_map]
  refine h.imp_of_mem ?_
  intro a b _ _ hab
  by_cases ha : a.1 = fid <;> by_cases hb : b.1 = fid <;>
    simp [ha, hb] at hab ⊢ <;> omega

theorem sorted_sinsertNew {fid : Nat} {n : LRUKNode} {l : List (Nat × LRUKNode)}
    (h : List.Pairwise (fun a b => a.1 < b.1) l) :
    List.Pairwise (fun a b => a.1 < b.1) (sinsertNew fid n l) := by
  induction l with
  | nil => simp [sinsertNew]
  | cons fm rest ih =>
    obtain ⟨f, m⟩ := fm
    obtain ⟨hhead, htail⟩ := List.pairwise_cons.mp h
    rw [sinsertNew]
    by_cases h1 : fid < f
    · rw [if_pos h1]
      refine List.pairwise_cons.mpr ⟨?_, h⟩
      intro b hb
      rcases List.mem_cons.mp hb with rfl | hb'
      · exact h1
      · exact lt_trans h1 (hhead b hb')
    · rw [if_neg h1]
      by_cases h2 : fid = f
      · rw [if_pos h2]
        refine List.pairwise_cons.mpr ⟨?_, htail⟩
        intro b hb
        exact h2 ▸ hhead b hb
      · rw [if_neg h2]
        refine List.pairwise_cons.mpr ⟨?_, ih htail⟩
        intro b hb
        rcases mem_sinsertNew hb with rfl | hb'
        · omega
        · exact hhead b hb'

theorem sorted_aerase {k : Nat} {l : List (Nat × LRUKNode)}
    (h : List.Pairwise (fun a b => a.1 < b.1) l) :
    List.Pairwise (fun a b => a.1 < b.1) (aerase l k) :=
  List.Pairwise.sublist (List.filter_sublist l) h

/-! Counting evictable nodes. -/

theorem countEvictable_cons (kv : Nat × LRUKNode) (l : List (Nat × LRUKNode)) :
    countEvictable (kv :: l) =
      countEvictable l + (if kv.2.isEvictable then 1 else 0) := by
  rw [countEvictable, countEvictable, List.filter_cons]
  by_cases h : kv.2.isEvictable <;> simp [h]

theorem count_supdate (n' : LRUKNode) {fid : Nat} {n0 : LRUKNode}
    {l : List (Nat × LRUKNode)}
    (hs : List.Pairwise (fun a b => a.1 < b.1) l)
    (h : alookup l fid = some n0) :
    countEvictable (supdate fid n' l) + (if n0.isEvictable then 1 else 0) =
      countEvictable l + (if n'.isEvictable then 1 else 0) := by
  induction l with
  | nil => cases h
  | cons fm rest ih =>
    obtain ⟨f, m⟩ := fm
    obtain ⟨hhead, htail⟩ := List.pairwise_cons.mp hs
    rw [alookup_cons] at h
    show countEvictable ((if f = fid then (fid, n') else (f, m)) :: supdate fid n' rest) +
      _ = countEvictable ((f, m) :: rest) + _
    by_cases hf : f = fid
    · rw [if_pos hf] at h
      have hm : m = n0 := Option.some.injEq _ _ ▸ h
      have hrest : supdate fid n' rest = rest :=
        supdate_of_forall_ne (fun kv hkv => by
          have hlt := hhead kv hkv
          dsimp only at hlt
          omega)
      rw [if_pos hf, hrest, countEvictable_cons, countEvictable_cons]
      dsimp only
      rw [hm]
      omega
    · rw [if_neg hf] at h
      rw [if_neg hf, countEvictable_cons, countEvictable_cons]
      have := ih htail h
      omega

theorem count_sinsertNew {fid : Nat} {n : LRUKNode} {l : List (Nat × LRUKNode)}
    (hn : n.isEvictable = false) (h : alookup l fid = none) :
    countEvictable (sinsertNew fid n l) = countEvictable l := by
  induction l with
  | nil => simp [sinsertNew, countEvictable, hn]
  | cons fm rest ih =>
    obtain ⟨f, m⟩ := fm
    rw [alookup_cons] at h
    rw [sinsertNew]
    by_cases h1 : fid < f
    · rw [if_pos h1, countEvictable_cons]
      simp [hn]
    · rw [if_neg h1]
      by_cases h2 : fid = f
      · rw [if_pos h2.symm] at h
        cases h
      · rw [if_neg h2, countEvictable_cons, countEvictable_cons]
        rw [if_neg (fun he => h2 he.symm)] at h
        rw [ih h]

theorem count_aerase {fid : Nat} {n : LRUKNode} {l : List (Nat × LRUKNode)}
    (hs : List.Pairwise (fun a b => a.1 < b.1) l)
    (hmem : (fid, n) ∈ l) (he : n.isEvictable = true) :
    countEvictable (aerase l fid) + 1 = countEvictable l := by
  induction l with
  | nil => cases hmem
  | cons fm rest ih =>
    obtain ⟨f, m⟩ := fm
    obtain ⟨hhead, htail⟩ := List.pairwise_cons.mp hs
    rcases List.mem_cons.mp hmem with heq | hmem'
    · have h1 : fid = f := congrArg Prod.fst heq
      have h2 : n = m := congrArg Prod.snd heq
      subst h1
      subst h2
      rw [aerase_cons_eq n rest rfl]
      have hrest : aerase rest fid = rest :=
        aerase_of_alookup_none rest fid
          (alookup_none_of_forall_ne (fun kv hkv => by
            have hlt := hhead kv hkv
            dsimp only at hlt
            omega))
      rw [hrest, countEvictable_cons]
      dsimp only
      rw [he]
      simp
    · have hf : f ≠ fid := by
        have hlt := hhead _ hmem'
        dsimp only at hlt
        omega
      rw [aerase_cons_ne m rest hf, countEvictable_cons, countEvictable_cons]
      have := ih htail hmem'
      omega

/-! ## Replacer-operation effect lemmas -/

/-- Well-formedness of a replacer: ascending store keys, and `curr_size_`
equal to the number of evictable nodes. -/
def RWF (r : Replacer) : Prop :=
  List.Pairwise (fun a b => a.1 < b.1) r.store ∧
  r.currSize = countEvictable r.store

theorem recordAccess_eq_new (r : Replacer) (f : Nat)
    (h : alookup r.store f = none) :
    recordAccess r f =
      { r with
        clock := r.clock + 1
        store := sinsertNew f
          (nodeRecord { fid := f, k := r.k, history := [], isEvictable := false }
            r.clock) r.store } := by
  unfold recordAccess tick
  dsimp only
  rw [h]

theorem recordAccess_eq_upd (r : Replacer) (f : Nat) (n : LRUKNode)
    (h : alookup r.store f = some n) :
    recordAccess r f =
      { r with
        clock := r.clock + 1
        store := supdate f (nodeRecord n r.clock) r.store } := by
  unfold recordAccess tick
  dsimp only
  rw [h]

theorem setEvictable_eq_miss (r : Replacer) (f : Nat) (b : Bool)
    (h : alookup r.store f = none) : setEvictable r f b = r := by
  unfold setEvictable
  rw [h]

theorem setEvictable_eq_flip (r : Replacer) (f : Nat) (b : Bool) (n : LRUKNode)
    (h : alookup r.store f = some n) (hb : n.isEvictable ≠ b) :
    setEvictable r f b =
      { r with
        store := supdate f { n with isEvictable := b } r.store
        currSize := if b then r.currSize + 1 else r.currSize - 1 } := by
  unfold setEvictable
  rw [h]
  dsimp only
  rw [if_pos hb]

theorem setEvictable_eq_same (r : Replacer) (f : Nat) (b : Bool) (n : LRUKNode)
    (h : alookup r.store f = some n) (hb : n.isEvictable = b) :
    setEvictable r f b = r := by
  unfold setEvictable
  rw [h]
  dsimp only
  rw [if_neg (by rw [hb]; exact fun hc => hc rfl)]

theorem recordAccess_lookup_self (r : Replacer) (f : Nat) :
    ∃ n, alookup (recordAccess r f).store f = some n ∧
      n.isEvictable = ((alookup r.store f).map LRUKNode.isEvictable).getD false := by
  cases hl : alookup r.store f with
  | none =>
    rw [recordAccess_eq_new r f hl]
    exact ⟨_, alookup_sinsertNew_self f _ r.store, rfl⟩
  | some n =>
    rw [recordAccess_eq_upd r f n hl]
    refine ⟨nodeRecord n r.clock, ?_, rfl⟩
    show alookup (supdate f (nodeRecord n r.clock) r.store) f = _
    rw [alookup_supdate_self, hl]
    rfl

theorem recordAccess_lookup_ne (r : Replacer) (f g : Nat) (hg : g ≠ f) :
    alookup (recordAccess r f).store g = alookup r.store g := by
  cases hl : alookup r.store f with
  | none =>
    rw [recordAccess_eq_new r f hl]
    exact alookup_sinsertNew_ne f g _ r.store hg
  | some n =>
    rw [recordAccess_eq_upd r f n hl]
    exact alookup_supdate_ne f g _ r.store hg

theorem mem_recordAccess {r : Replacer} {f : Nat} {kv : Nat × LRUKNode}
    (h : kv ∈ (recordAccess r f).store) :
    (kv.1 = f ∧ kv.2.isEvictable =
      ((alookup r.store f).map LRUKNode.isEvictable).getD false) ∨
    (kv ∈ r.store ∧ kv.1 ≠ f) := by
  cases hl : alookup r.store f with
  | none =>
    rw [recordAccess_eq_new r f hl] at h
    rcases mem_sinsertNew h with rfl | h'
    · exact Or.inl ⟨rfl, rfl⟩
    · exact Or.inr ⟨h', forall_ne_of_alookup_none hl kv h'⟩
  | some n =>
    rw [recordAccess_eq_upd r f n hl] at h
    rcases mem_supdate h with rfl | ⟨h1, h2⟩
    · exact Or.inl ⟨rfl, rfl⟩
    · exact Or.inr ⟨h1, h2⟩

theorem setEvictable_lookup_self (r : Replacer) (f : Nat) (b : Bool) :
    alookup (setEvictable r f b).store f =
      (alookup r.store f).map (fun n => { n with isEvictable := b }) := by
  cases hl : alookup r.store f with
  | none =>
    rw [setEvictable_eq_miss r f b hl, hl]
    rfl
  | some n =>
    by_cases hb : n.isEvictable = b
    · rw [setEvictable_eq_same r f b n hl hb]
      rw [hl]
      show some n = some { n with isEvictable := b }
      rw [← hb]
    · rw [setEvictable_eq_flip r f b n hl hb]
      show alookup (supdate f _ r.store) f = _
      rw [alookup_supdate_self, hl]
      rfl

theorem setEvictable_lookup_ne (r : Replacer) (f g : Nat) (b : Bool)
    (hg : g ≠ f) :
    alookup (setEvictable r f b).store g = alookup r.store g := by
  cases hl : alookup r.store f with
  | none => rw [setEvictable_eq_miss r f b hl]
  | some n =>
    by_cases hb : n.isEvictable = b
    · rw [setEvictable_eq_same r f b n hl hb]
    · rw [setEvictable_eq_flip r f b n hl hb]
      exact alookup_supdate_ne f g _ r.store hg

theorem alookup_of_mem_sorted {l : List (Nat × LRUKNode)}
    (hs : List.Pairwise (fun a b => a.1 < b.1) l) {kv : Nat × LRUKNode}
    (h : kv ∈ l) : alookup l kv.1 = some kv.2 := by
  induction l with
  | nil => cases h
  | cons fm rest ih =>
    obtain ⟨f, m⟩ := fm
    obtain ⟨hhead, htail⟩ := List.pairwise_cons.mp hs
    rcases List.mem_cons.mp h with heq | h'
    · have h1 : f = kv.1 := (congrArg Prod.fst heq).symm
      have h2 : m = kv.2 := (congrArg Prod.snd heq).symm
      rw [alookup_cons, if_pos h1, h2]
    · have hne : f ≠ kv.1 := by
        have hlt := hhead kv h'
        dsimp only at hlt
        omega
      rw [alookup_cons, if_neg hne]
      exact ih htail h'

theorem mem_setEvictable {r : Replacer} {f : Nat} {b : Bool}
    (hs : List.Pairwise (fun a b => a.1 < b.1) r.store)
    {kv : Nat × LRUKNode} (h : kv ∈ (setEvictable r f b).store) :
    (kv.1 = f ∧ kv.2.isEvictable = b) ∨ (kv ∈ r.store ∧ kv.1 ≠ f) := by
  cases hl : alookup r.store f with
  | none =>
    rw [setEvictable_eq_miss r f b hl] at h
    exact Or.inr ⟨h, forall_ne_of_alookup_none hl kv h⟩
  | some n =>
    by_cases hb : n.isEvictable = b
    · rw [setEvictable_eq_same r f b n hl hb] at h
      by_cases hk : kv.1 = f
      · left
        refine ⟨hk, ?_⟩
        have hlk := alookup_of_mem_sorted hs h
        rw [hk, hl] at hlk
        have hkv2 : kv.2 = n := by
          cases hlk
          rfl
        rw [hkv2, hb]
      · exact Or.inr ⟨h, hk⟩
    · rw [setEvictable_eq_flip r f b n hl hb] at h
      rcases mem_supdate h with rfl | ⟨h1, h2⟩
      · exact Or.inl ⟨rfl, rfl⟩
      · exact Or.inr ⟨h1, h2⟩

theorem rwf_recordAccess {r : Replacer} {f : Nat} (h : RWF r) :
    RWF (recordAccess r f) := by
  obtain ⟨hs, hc⟩ := h
  cases hl : alookup r.store f with
  | none =>
    rw [recordAccess_eq_new r f hl]
    refine ⟨sorted_sinsertNew hs, ?_⟩
    show r.currSize = countEvictable (sinsertNew f _ r.store)
    rw [count_sinsertNew rfl hl]
    exact hc
  | some n =>
    rw [recordAccess_eq_upd r f n hl]
    refine ⟨sorted_supdate hs, ?_⟩
    show r.currSize = countEvictable (supdate f (nodeRecord n r.clock) r.store)
    have heq := count_supdate (nodeRecord n r.clock) hs hl
    have hflag : (nodeRecord n r.clock).isEvictable = n.isEvictable := rfl
    rw [hflag] at heq
    omega

theorem rwf_setEvictable {r : Replacer} (h : RWF r) (f : Nat) (b : Bool) :
    RWF (setEvictable r f b) := by
  obtain ⟨hs, hc⟩ := h
  cases hl : alookup r.store f with
  | none => rw [setEvictable_eq_miss r f b hl]; exact ⟨hs, hc⟩
  | some n =>
    by_cases hb : n.isEvictable = b
    · rw [setEvictable_eq_same r f b n hl hb]
      exact ⟨hs, hc⟩
    · rw [setEvictable_eq_flip r f b n hl hb]
      refine ⟨sorted_supdate hs, ?_⟩
      show (if b then r.currSize + 1 else r.currSize - 1) =
        countEvictable (supdate f { n with isEvictable := b } r.store)
      have heq := count_supdate ({ n with isEvictable := b }) hs hl
      have hflag : ({ n with isEvictable := b } : LRUKNode).isEvictable = b := rfl
      rw [hflag] at heq
      cases b with
      | true =>
        rw [if_pos rfl]
        have hn : n.isEvictable = false := by
          by_contra hx
          rw [Bool.not_eq_false] at hx
          exact hb hx
        rw [hn] at heq
        rw [show (if (false : Bool) = true then (1 : Nat) else 0) = 0 from rfl,
          show (if (true : Bool) = true then (1 : Nat) else 0) = 1 from rfl] at heq
        omega
      | false =>
        rw [if_neg (fun hc : (false : Bool) = true => by cases hc)]
        have hn : n.isEvictable = true := by
          by_contra hx
          rw [Bool.not_eq_true] at hx
          exact hb hx
        rw [hn] at heq
        rw [show (if (true : Bool) = true then (1 : Nat) else 0) = 1 from rfl,
          show (if (false : Bool) = true then (1 : Nat) else 0) = 0 from rfl] at heq
        omega

/-- Case analysis of `LRUKReplacer::Evict`, valid for every replacer state:
either it fails and only the clock advanced, or it returns an evictable
member of the store, erases it, and decrements `curr_size_`. -/
theorem evict_cases (r : Replacer) :
    ((replacerEvict r).1 = none ∧
      (replacerEvict r).2 = { r with clock := r.clock + 1 }) ∨
    (∃ fid n, (replacerEvict r).1 = some fid ∧ (fid, n) ∈ r.store ∧
      n.isEvictable = true ∧
      (replacerEvict r).2 =
        { r with
          clock := r.clock + 1
          store := aerase r.store fid
          currSize := r.currSize - 1 }) := by
  obtain ⟨-, hgo2⟩ := evictScan_go r.clock r.store none (by intro a ha; cases ha)
  by_cases hz : r.currSize = 0
  · left
    constructor <;> (rw [replacerEvict, tick]; simp [hz])
  · cases hscan : r.store.foldl (evictStep r.clock) none with
    | none =>
      left
      constructor <;>
        (rw [replacerEvict, tick]; simp only [hz, if_false, evictScan]; rw [hscan])
    | some b =>
      right
      obtain ⟨hev, hmem, -, -⟩ := hgo2 b hscan
      refine ⟨b.1, b.2, ?_, ?_, hev, ?_⟩
      · rw [replacerEvict, tick]
        simp only [hz, if_false, evictScan]
        rw [hscan]
      · rcases hmem with h | h
        · cases h
        · exact h
      · rw [replacerEvict, tick]
        simp only [hz, if_false, evictScan]
        rw [hscan]

theorem rwf_evict {r : Replacer} (h : RWF r) : RWF (replacerEvict r).2 := by
  obtain ⟨hs, hc⟩ := h
  rcases evict_cases r with ⟨-, heq⟩ | ⟨fid, n, -, hmem, hev, heq⟩
  · rw [heq]
    exact ⟨hs, hc⟩
  · rw [heq]
    refine ⟨sorted_aerase hs, ?_⟩
    show r.currSize - 1 = countEvictable (aerase r.store fid)
    have := count_aerase hs hmem hev
    omega

/-! ## The buffer pool invariant

`WF` collects the state properties that every reachable BPM state satisfies;
it is established at construction and preserved by every public operation. -/

structure WF (s : BPMState) : Prop where
  rsorted : List.Pairwise (fun a b => a.1 < b.1) s.replacer.store
  rcount : s.replacer.currSize = countEvictable s.replacer.store
  freeLt : ∀ f ∈ s.freeList, f < s.pages.length
  freeFrame : ∀ f ∈ s.freeList, getFrame s f = emptyFrame
  freeNodup : s.freeList.Nodup
  tableLt : ∀ p f, alookup s.pageTable p = some f → f < s.pages.length
  tableAgree : ∀ p f, alookup s.pageTable p = some f → (getFrame s f).pageId = p
  tableNotFree : ∀ p f, alookup s.pageTable p = some f → f ∉ s.freeList
  tableNoInvalid : alookup s.pageTable INVALID_PAGE_ID = none
  nextNonneg : 0 ≤ s.nextPageId
  evictablePin : ∀ kv ∈ s.replacer.store, kv.2.isEvictable = true →
    (getFrame s kv.1).pinCount = 0
  storeLt : ∀ kv ∈ s.replacer.store, kv.1 < s.pages.length
  pinnedNode : ∀ f, (getFrame s f).pinCount > 0 →
    (alookup s.replacer.store f).isSome
  unpinnedAvail : ∀ f, f < s.pages.length → (getFrame s f).pinCount = 0 →
    f ∈ s.freeList ∨
    ∃ n, alookup s.replacer.store f = some n ∧ n.isEvictable = true

theorem wf_rwf {s : BPMState} (h : WF s) : RWF s.replacer :=
  ⟨h.rsorted, h.rcount⟩

theorem frames_getD_set_self (l : List Frame) (n : Nat) (x : Frame)
    (h : n < l.length) : (l.set n x).getD n emptyFrame = x := by
  simp [List.getD_eq_getElem?_getD, List.getElem?_set_self h]

theorem frames_getD_set_ne (l : List Frame) (n m : Nat) (x : Frame)
    (h : n ≠ m) : (l.set n x).getD m emptyFrame = l.getD m emptyFrame := by
  simp [List.getD_eq_getElem?_getD, List.getElem?_set_ne h]

theorem wf_init (n k : Nat) : WF (bpmInit n k) := by
  refine ⟨?_, ?_, ?_, ?_, ?_, ?_, ?_, ?_, ?_, ?_, ?_, ?_, ?_, ?_⟩
  · exact List.Pairwise.nil
  · rfl
  · intro f hf
    simpa [bpmInit] using List.mem_range.mp hf
  · intro f hf
    show (List.replicate n emptyFrame).getD f emptyFrame = emptyFrame
    cases h : (List.replicate n emptyFrame)[f]? with
    | none => simp [List.getD_eq_getElem?_getD, h]
    | some x =>
      have := List.getElem?_mem h
      rw [List.eq_of_mem_replicate this] at h
      simp [List.getD_eq_getElem?_getD, h]
  · exact List.nodup_range n
  · intro p f h; cases h
  · intro p f h; cases h
  · intro p f h; cases h
  · rfl
  · exact le_refl 0
  · intro kv hkv; cases hkv
  · intro kv hkv; cases hkv
  · intro f h
    exfalso
    revert h
    show ¬((List.replicate n emptyFrame).getD f emptyFrame).pinCount > 0
    cases hx : (List.replicate n emptyFrame)[f]? with
    | none => simp [List.getD_eq_getElem?_getD, hx, emptyFrame]
    | some x =>
      have := List.getElem?_mem hx
      rw [List.eq_of_mem_replicate this] at hx
      simp [List.getD_eq_getElem?_getD, hx, emptyFrame]
  · intro f hf _
    left
    show f ∈ List.range n
    rw [List.mem_range]
    simpa [bpmInit] using hf

/-- The lookup at the pinned frame after `RecordAccess` + `SetEvictable(false)`. -/
theorem pinned_lookup_self (r : Replacer) (f : Nat) :
    ∃ n, alookup (setEvictable (recordAccess r f) f false).store f = some n ∧
      n.isEvictable = false := by
  obtain ⟨m, hm, -⟩ := recordAccess_lookup_self r f
  refine ⟨{ m with isEvictable := false }, ?_, rfl⟩
  rw [setEvictable_lookup_self, hm]
  rfl

theorem pinned_lookup_ne (r : Replacer) (f g : Nat) (hg : g ≠ f) :
    alookup (setEvictable (recordAccess r f) f false).store g =
      alookup r.store g := by
  rw [setEvictable_lookup_ne _ _ _ _ hg, recordAccess_lookup_ne _ _ _ hg]

theorem mem_pinned {r : Replacer} {f : Nat} (hr : RWF r)
    {kv : Nat × LRUKNode}
    (h : kv ∈ (setEvictable (recordAccess r f) f false).store) :
    (kv.1 = f ∧ kv.2.isEvictable = false) ∨ (kv ∈ r.store ∧ kv.1 ≠ f) := by
  rcases mem_setEvictable (rwf_recordAccess hr).1 h with ⟨h1, h2⟩ | ⟨h1, h2⟩
  · exact Or.inl ⟨h1, h2⟩
  · rcases mem_recordAccess h1 with ⟨h3, -⟩ | ⟨h3, h4⟩
    · exact absurd h3 h2
    · exact Or.inr ⟨h3, h4⟩

/-- Well-formedness of the state after the shared frame-installation path of
`NewPage` and `DoFetchPage` (miss): a frame `f` acquired from the free list
or the replacer is loaded with a fresh page and pinned. -/
theorem wf_install (s s' : BPMState) (hWF : WF s) (f : Nat)
    (hf : f < s.pages.length) (newPid oldPid : Int) (bytes : PageData)
    (pc : Nat) (dflag : Bool) (hpc : 0 < pc)
    (r0 : Replacer)
    (hpages : s'.pages = s.pages.set f
      { pageId := newPid, pinCount := pc, isDirty := dflag, data := bytes })
    (htable : s'.pageTable = ainsert (aerase s.pageTable oldPid) newPid f)
    (hfl1 : ∀ g ∈ s'.freeList, g ∈ s.freeList ∧ g ≠ f)
    (hfl2 : s'.freeList.Nodup)
    (hfl3 : ∀ g ∈ s.freeList, g ≠ f → g ∈ s'.freeList)
    (hrep : s'.replacer = setEvictable (recordAccess r0 f) f false)
    (hr0 : RWF r0)
    (hr0mem : ∀ kv ∈ r0.store, kv ∈ s.replacer.store)
    (hr0look : ∀ g, g ≠ f → alookup r0.store g = alookup s.replacer.store g)
    (hnext : 0 ≤ s'.nextPageId)
    (hnewPid : newPid ≠ INVALID_PAGE_ID)
    (hold : (getFrame s f).pageId = oldPid) : WF s' := by
  have hlen : s'.pages.length = s.pages.length := by rw [hpages, List.length_set]
  have hget_self : getFrame s' f =
      { pageId := newPid, pinCount := pc, isDirty := dflag, data := bytes } := by
    show s'.pages.getD f emptyFrame = _
    rw [hpages]
    exact frames_getD_set_self _ f _ hf
  have hget_ne : ∀ g, g ≠ f → getFrame s' g = getFrame s g := by
    intro g hg
    show s'.pages.getD g emptyFrame = s.pages.getD g emptyFrame
    rw [hpages]
    exact frames_getD_set_ne _ f g _ (fun he => hg he.symm)
  have htlook : ∀ p g, alookup s'.pageTable p = some g →
      (p = newPid ∧ g = f) ∨
      (p ≠ newPid ∧ p ≠ oldPid ∧ alookup s.pageTable p = some g) := by
    intro p g hp
    rw [htable] at hp
    by_cases hpn : p = newPid
    · subst hpn
      rw [alookup_ainsert_self] at hp
      cases hp
      exact Or.inl ⟨rfl, rfl⟩
    · rw [alookup_ainsert_ne _ _ _ _ (fun he => hpn he.symm)] at hp
      by_cases hpo : p = oldPid
      · subst hpo
        rw [alookup_aerase_self] at hp
        cases hp
      · rw [alookup_aerase_ne _ _ _ (fun he => hpo he.symm)] at hp
        exact Or.inr ⟨hpn, hpo, hp⟩
  refine ⟨?_, ?_, ?_, ?_, ?_, ?_, ?_, ?_, ?_, ?_, ?_, ?_, ?_, ?_⟩
  · rw [hrep]
    exact (rwf_setEvictable (rwf_recordAccess hr0) f false).1
  · rw [hrep]
    exact (rwf_setEvictable (rwf_recordAccess hr0) f false).2
  · intro g hg
    rw [hlen]
    exact hWF.freeLt g (hfl1 g hg).1
  · intro g hg
    obtain ⟨hg1, hg2⟩ := hfl1 g hg
    rw [hget_ne g hg2]
    exact hWF.freeFrame g hg1
  · exact hfl2
  · intro p g hp
    rcases htlook p g hp with ⟨-, rfl⟩ | ⟨-, -, hp'⟩
    · rw [hlen]; exact hf
    · rw [hlen]; exact hWF.tableLt p g hp'
  · intro p g hp
    rcases htlook p g hp with ⟨rfl, rfl⟩ | ⟨-, hpo, hp'⟩
    · rw [hget_self]
    · have hgf : g ≠ f := by
        intro he
        subst he
        exact hpo ((hWF.tableAgree p g hp').symm.trans hold)
      rw [hget_ne g hgf]
      exact hWF.tableAgree p g hp'
  · intro p g hp hgmem
    rcases htlook p g hp with ⟨-, rfl⟩ | ⟨-, -, hp'⟩
    · exact (hfl1 g hgmem).2 rfl
    · exact hWF.tableNotFree p g hp' (hfl1 g hgmem).1
  · rw [htable]
    rw [alookup_ainsert_ne _ _ _ _ hnewPid]
    by_cases ho : oldPid = INVALID_PAGE_ID
    · rw [ho, alookup_aerase_self]
    · rw [alookup_aerase_ne _ _ _ ho]
      exact hWF.tableNoInvalid
  · exact hnext
  · intro kv hkv hkve
    rw [hrep] at hkv
    rcases mem_pinned hr0 hkv with ⟨-, hkv2⟩ | ⟨hkv1, hkv2⟩
    · rw [hkve] at hkv2; cases hkv2
    · rw [hget_ne kv.1 hkv2]
      exact hWF.evictablePin kv (hr0mem kv hkv1) hkve
  · intro kv hkv
    rw [hrep] at hkv
    rcases mem_pinned hr0 hkv with ⟨hkv1, -⟩ | ⟨hkv1, -⟩
    · rw [hkv1, hlen]; exact hf
    · rw [hlen]; exact hWF.storeLt kv (hr0mem kv hkv1)
  · intro g hg
    by_cases hgf : g = f
    · subst hgf
      obtain ⟨n, hn, -⟩ := pinned_lookup_self r0 g
      rw [hrep, hn]
      rfl
    · rw [hget_ne g hgf] at hg
      have := hWF.pinnedNode g hg
      rw [hrep, pinned_lookup_ne r0 f g hgf, hr0look g hgf]
      exact this
  · intro g hglen hgpin
    by_cases hgf : g = f
    · subst hgf
      rw [hget_self] at hgpin
      have hz : pc = 0 := hgpin
      omega
    · rw [hget_ne g hgf] at hgpin
      rcases hWF.unpinnedAvail g (hlen ▸ hglen) hgpin with hfree | ⟨n, hn, hne⟩
      · exact Or.inl (hfl3 g hfree hgf)
      · right
        refine ⟨n, ?_, hne⟩
        rw [hrep, pinned_lookup_ne r0 f g hgf, hr0look g hgf]
        exact hn

/-! ## Operation anatomy -/

/-! ## Operation anatomy

Projection lemmas describing the states produced by the BPM operations; the
composite frame-acquisition path of `NewPage` / `DoFetchPage` is factored
through `npPrep` (write-back + stale-mapping erase). -/

/-- The write-back-and-erase prefix shared by `NewPage` and the
`DoFetchPage` miss path, as it appears in the source. -/
def npPrep (s : BPMState) (f : Nat) : BPMState :=
  let s2 := writeBackIfDirty s f
  { s2 with pageTable := aerase s2.pageTable (getFrame s2 f).pageId }

theorem wbd_pages (s : BPMState) (f : Nat) :
    (writeBackIfDirty s f).pages = s.pages := by
  unfold writeBackIfDirty
  dsimp only
  split <;> rfl

theorem wbd_pageTable (s : BPMState) (f : Nat) :
    (writeBackIfDirty s f).pageTable = s.pageTable := by
  unfold writeBackIfDirty
  dsimp only
  split <;> rfl

theorem wbd_freeList (s : BPMState) (f : Nat) :
    (writeBackIfDirty s f).freeList = s.freeList := by
  unfold writeBackIfDirty
  dsimp only
  split <;> rfl

theorem wbd_replacer (s : BPMState) (f : Nat) :
    (writeBackIfDirty s f).replacer = s.replacer := by
  unfold writeBackIfDirty
  dsimp only
  split <;> rfl

theorem wbd_nextPageId (s : BPMState) (f : Nat) :
    (writeBackIfDirty s f).nextPageId = s.nextPageId := by
  unfold writeBackIfDirty
  dsimp only
  split <;> rfl

theorem wbd_disk (s : BPMState) (f : Nat) :
    (writeBackIfDirty s f).disk =
      if (getFrame s f).isDirty then
        diskWrite s.disk (getFrame s f).pageId (getFrame s f).data
      else s.disk := by
  unfold writeBackIfDirty
  by_cases h : (getFrame s f).isDirty = true
  · rw [if_pos h]
    show diskWrite s.disk (getFrame s f).pageId (getFrame s f).data = _
    rw [if_pos h]
  · rw [if_neg h]
    show s.disk = _
    rw [if_neg h]

theorem wbd_getFrame (s : BPMState) (f g : Nat) :
    getFrame (writeBackIfDirty s f) g = getFrame s g := by
  show (writeBackIfDirty s f).pages.getD g emptyFrame = _
  rw [wbd_pages]
  rfl

theorem npPrep_pages (s : BPMState) (f : Nat) :
    (npPrep s f).pages = s.pages := wbd_pages s f

theorem npPrep_pageTable (s : BPMState) (f : Nat) :
    (npPrep s f).pageTable = aerase s.pageTable (getFrame s f).pageId := by
  show aerase (writeBackIfDirty s f).pageTable
    (getFrame (writeBackIfDirty s f) f).pageId = _
  rw [wbd_pageTable, wbd_getFrame]

theorem npPrep_freeList (s : BPMState) (f : Nat) :
    (npPrep s f).freeList = s.freeList := wbd_freeList s f

theorem npPrep_replacer (s : BPMState) (f : Nat) :
    (npPrep s f).replacer = s.replacer := wbd_replacer s f

theorem npPrep_nextPageId (s : BPMState) (f : Nat) :
    (npPrep s f).nextPageId = s.nextPageId := wbd_nextPageId s f

theorem npPrep_disk (s : BPMState) (f : Nat) :
    (npPrep s f).disk =
      if (getFrame s f).isDirty then
        diskWrite s.disk (getFrame s f).pageId (getFrame s f).data
      else s.disk := wbd_disk s f

theorem npPrep_getFrame (s : BPMState) (f g : Nat) :
    getFrame (npPrep s f) g = getFrame s g := wbd_getFrame s f g

theorem nph_fst (s : BPMState) (f : Nat) :
    (newPageHelper s f).1 = s.nextPageId := rfl

theorem nph_pages (s : BPMState) (f : Nat) (hf : f < s.pages.length) :
    ((newPageHelper s f).2).pages = s.pages.set f
      { pageId := s.nextPageId, pinCount := 1, isDirty := false,
        data := zeroPage } := by
  have hA : (s.pages.set f
      { pageId := s.nextPageId, pinCount := 0, isDirty := false,
        data := zeroPage }).getD f emptyFrame =
      { pageId := s.nextPageId, pinCount := 0, isDirty := false,
        data := zeroPage } :=
    frames_getD_set_self s.pages f _ hf
  show (s.pages.set f
      { pageId := s.nextPageId, pinCount := 0, isDirty := false,
        data := zeroPage }).set f
      { ((s.pages.set f
          { pageId := s.nextPageId, pinCount := 0, isDirty := false,
            data := zeroPage }).getD f emptyFrame) with
        pinCount := ((s.pages.set f
          { pageId := s.nextPageId, pinCount := 0, isDirty := false,
            data := zeroPage }).getD f emptyFrame).pinCount + 1 } = _
  rw [hA, List.set_set]

theorem nph_pageTable (s : BPMState) (f : Nat) (hf : f < s.pages.length) :
    ((newPageHelper s f).2).pageTable = ainsert s.pageTable s.nextPageId f := by
  have hA : (s.pages.set f
      { pageId := s.nextPageId, pinCount := 0, isDirty := false,
        data := zeroPage }).getD f emptyFrame =
      { pageId := s.nextPageId, pinCount := 0, isDirty := false,
        data := zeroPage } :=
    frames_getD_set_self s.pages f _ hf
  show ainsert s.pageTable ((s.pages.set f
      { pageId := s.nextPageId, pinCount := 0, isDirty := false,
        data := zeroPage }).getD f emptyFrame).pageId f = _
  rw [hA]

theorem nph_freeList (s : BPMState) (f : Nat) :
    ((newPageHelper s f).2).freeList = s.freeList := rfl

theorem nph_replacer (s : BPMState) (f : Nat) :
    ((newPageHelper s f).2).replacer =
      setEvictable (recordAccess s.replacer f) f false := rfl

theorem nph_nextPageId (s : BPMState) (f : Nat) :
    ((newPageHelper s f).2).nextPageId = s.nextPageId + 1 := rfl

theorem nph_disk (s : BPMState) (f : Nat) :
    ((newPageHelper s f).2).disk = s.disk := rfl

theorem getAvailableFrameId_eq_free (s : BPMState) (f : Nat) (rest : List Nat)
    (hfree : s.freeList = f :: rest) :
    getAvailableFrameId s = (some f, { s with freeList := rest }) := by
  unfold getAvailableFrameId
  rw [hfree]

theorem getAvailableFrameId_eq_evict (s : BPMState) (hfree : s.freeList = []) :
    getAvailableFrameId s = ((replacerEvict s.replacer).1,
      { s with replacer := (replacerEvict s.replacer).2 }) := by
  unfold getAvailableFrameId
  rw [hfree]

theorem newPage_free_body (s : BPMState) (f : Nat) (rest : List Nat)
    (hfree : s.freeList = f :: rest) :
    newPage s =
      (some ((newPageHelper (npPrep { s with freeList := rest } f) f).1, f),
       (newPageHelper (npPrep { s with freeList := rest } f) f).2) := by
  unfold newPage
  rw [getAvailableFrameId_eq_free s f rest hfree]
  rfl

theorem newPage_evict_body (s : BPMState) (f : Nat) (hfree : s.freeList = [])
    (hev : (replacerEvict s.replacer).1 = some f) :
    newPage s =
      (some ((newPageHelper
          (npPrep { s with replacer := (replacerEvict s.replacer).2 } f) f).1, f),
       (newPageHelper
          (npPrep { s with replacer := (replacerEvict s.replacer).2 } f) f).2) := by
  unfold newPage
  rw [getAvailableFrameId_eq_evict s hfree, hev]
  rfl

theorem newPage_fail_body (s : BPMState) (hfree : s.freeList = [])
    (hev : (replacerEvict s.replacer).1 = none) :
    newPage s = (none, { s with replacer := (replacerEvict s.replacer).2 }) := by
  unfold newPage
  rw [getAvailableFrameId_eq_evict s hfree, hev]

theorem wf_newPage {s : BPMState} (h : WF s) : WF (newPage s).2 := by
  cases hfree : s.freeList with
  | cons f rest =>
    have hf : f < s.pages.length :=
      h.freeLt f (by rw [hfree]; exact List.mem_cons_self _ _)
    have hnodup := h.freeNodup
    rw [hfree] at hnodup
    have hbody := newPage_free_body s f rest hfree
    have hfP : f < (npPrep { s with freeList := rest } f).pages.length := by
      rw [npPrep_pages]
      exact hf
    have hpages : ((newPage s).2).pages = s.pages.set f
        { pageId := s.nextPageId, pinCount := 1, isDirty := false,
          data := zeroPage } := by
      rw [hbody, nph_pages _ f hfP, npPrep_pages, npPrep_nextPageId]
    have htable : ((newPage s).2).pageTable =
        ainsert (aerase s.pageTable (getFrame s f).pageId) s.nextPageId f := by
      rw [hbody, nph_pageTable _ f hfP, npPrep_pageTable, npPrep_nextPageId]
      rfl
    have hfl : ((newPage s).2).freeList = rest := by
      rw [hbody, nph_freeList, npPrep_freeList]
    have hrep : ((newPage s).2).replacer =
        setEvictable (recordAccess s.replacer f) f false := by
      rw [hbody, nph_replacer, npPrep_replacer]
    have hnpi : ((newPage s).2).nextPageId = s.nextPageId + 1 := by
      rw [hbody, nph_nextPageId, npPrep_nextPageId]
    refine wf_install s ((newPage s).2) h f hf s.nextPageId (getFrame s f).pageId
      zeroPage 1 false Nat.one_pos s.replacer hpages htable ?_ ?_ ?_ hrep (wf_rwf h)
      (fun kv hkv => hkv) (fun g _ => rfl) ?_ ?_ rfl
    · intro g hg
      rw [hfl] at hg
      constructor
      · rw [hfree]
        exact List.mem_cons_of_mem _ hg
      · intro he
        subst he
        exact (List.nodup_cons.mp hnodup).1 hg
    · rw [hfl]
      exact (List.nodup_cons.mp hnodup).2
    · intro g hgmem hgne
      rw [hfl]
      rw [hfree] at hgmem
      rcases List.mem_cons.mp hgmem with rfl | hg
      · exact absurd rfl hgne
      · exact hg
    · rw [hnpi]
      have := h.nextNonneg
      omega
    · show s.nextPageId ≠ INVALID_PAGE_ID
      have := h.nextNonneg
      rw [INVALID_PAGE_ID]
      omega
  | nil =>
    rcases evict_cases s.replacer with ⟨hev, heq⟩ | ⟨f, n, hev, hmem, hevict, heq⟩
    · rw [newPage_fail_body s hfree hev]
      refine ⟨?_, ?_, h.freeLt, h.freeFrame, h.freeNodup, h.tableLt,
        h.tableAgree, h.tableNotFree, h.tableNoInvalid, h.nextNonneg,
        ?_, ?_, ?_, ?_⟩
      · rw [heq]; exact h.rsorted
      · rw [heq]; exact h.rcount
      · rw [heq]; exact h.evictablePin
      · rw [heq]; exact h.storeLt
      · rw [heq]; exact h.pinnedNode
      · rw [heq]; exact h.unpinnedAvail
    · have hf : f < s.pages.length := h.storeLt (f, n) hmem
      have hbody := newPage_evict_body s f hfree hev
      have hfP : f < (npPrep { s with replacer := (replacerEvict s.replacer).2 }
          f).pages.length := by
        rw [npPrep_pages]
        exact hf
      have hpages : ((newPage s).2).pages = s.pages.set f
          { pageId := s.nextPageId, pinCount := 1, isDirty := false,
            data := zeroPage } := by
        rw [hbody, nph_pages _ f hfP, npPrep_pages, npPrep_nextPageId]
      have htable : ((newPage s).2).pageTable =
          ainsert (aerase s.pageTable (getFrame s f).pageId) s.nextPageId f := by
        rw [hbody, nph_pageTable _ f hfP, npPrep_pageTable, npPrep_nextPageId]
        rfl
      have hfl : ((newPage s).2).freeList = s.freeList := by
        rw [hbody, nph_freeList, npPrep_freeList]
      have hrep : ((newPage s).2).replacer =
          setEvictable (recordAccess (replacerEvict s.replacer).2 f) f false := by
        rw [hbody, nph_replacer, npPrep_replacer]
      have hnpi : ((newPage s).2).nextPageId = s.nextPageId + 1 := by
        rw [hbody, nph_nextPageId, npPrep_nextPageId]
      refine wf_install s ((newPage s).2) h f hf s.nextPageId (getFrame s f).pageId
        zeroPage 1 false Nat.one_pos (replacerEvict s.replacer).2 hpages htable ?_ ?_ ?_
        hrep ?_ ?_ ?_ ?_ ?_ rfl
      · intro g hg
        rw [hfl, hfree] at hg
        cases hg
      · rw [hfl, hfree]
        exact List.nodup_nil
      · intro g hgmem hgne
        rw [hfree] at hgmem
        cases hgmem
      · exact rwf_evict (wf_rwf h)
      · intro kv hkv
        rw [heq] at hkv
        exact mem_aerase hkv
      · intro g hg
        rw [heq]
        show alookup (aerase s.replacer.store f) g = _
        exact alookup_aerase_ne _ f g (fun he => hg he.symm)
      · rw [hnpi]
        have := h.nextNonneg
        omega
      · show s.nextPageId ≠ INVALID_PAGE_ID
        have := h.nextNonneg
        rw [INVALID_PAGE_ID]
        omega

theorem ainsert_aerase_self {α β : Type} [DecidableEq α]
    (l : List (α × β)) (k : α) (v : β) :
    ainsert (aerase l k) k v = ainsert l k v := by
  show (k, v) :: aerase (aerase l k) k = (k, v) :: aerase l k
  rw [aerase_aerase_self]

theorem fetch_invalid (s : BPMState) (pid : Int) (h : pid = INVALID_PAGE_ID) :
    fetchPage s pid = (none, s) := by
  unfold fetchPage
  rw [if_pos h]

theorem fetch_hit_body (s : BPMState) (pid : Int) (f : Nat)
    (hpid : pid ≠ INVALID_PAGE_ID) (hl : alookup s.pageTable pid = some f) :
    fetchPage s pid =
      (some f, pinPageToFrame (setFrame s f
        { getFrame s f with isDirty := true }) f) := by
  unfold fetchPage
  rw [if_neg hpid, hl]

/-- The state built by the `DoFetchPage` miss path after `npPrep`: read the
page from disk into the frame and pin it. -/
def fetchInstall (S : BPMState) (pid : Int) (f : Nat) : BPMState :=
  pinPageToFrame (setFrame S f
    { pageId := pid, pinCount := 0, isDirty := false,
      data := diskRead S.disk pid }) f

theorem fetch_miss_free_body (s : BPMState) (pid : Int) (f : Nat)
    (rest : List Nat) (hpid : pid ≠ INVALID_PAGE_ID)
    (hl : alookup s.pageTable pid = none) (hfree : s.freeList = f :: rest) :
    fetchPage s pid =
      (some f, fetchInstall (npPrep { s with freeList := rest } f) pid f) := by
  unfold fetchPage
  rw [if_neg hpid, hl, getAvailableFrameId_eq_free s f rest hfree]
  rfl

theorem fetch_miss_evict_body (s : BPMState) (pid : Int) (f : Nat)
    (hpid : pid ≠ INVALID_PAGE_ID) (hl : alookup s.pageTable pid = none)
    (hfree : s.freeList = []) (hev : (replacerEvict s.replacer).1 = some f) :
    fetchPage s pid =
      (some f, fetchInstall
        (npPrep { s with replacer := (replacerEvict s.replacer).2 } f) pid f) := by
  unfold fetchPage
  rw [if_neg hpid, hl, getAvailableFrameId_eq_evict s hfree, hev]
  rfl

theorem fetch_miss_fail_body (s : BPMState) (pid : Int)
    (hpid : pid ≠ INVALID_PAGE_ID) (hl : alookup s.pageTable pid = none)
    (hfree : s.freeList = []) (hev : (replacerEvict s.replacer).1 = none) :
    fetchPage s pid = (none, { s with replacer := (replacerEvict s.replacer).2 }) := by
  unfold fetchPage
  rw [if_neg hpid, hl, getAvailableFrameId_eq_evict s hfree, hev]

theorem fi_pages (S : BPMState) (pid : Int) (f : Nat)
    (hf : f < S.pages.length) :
    (fetchInstall S pid f).pages = S.pages.set f
      { pageId := pid, pinCount := 1, isDirty := false,
        data := diskRead S.disk pid } := by
  have hA : (S.pages.set f
      { pageId := pid, pinCount := 0, isDirty := false,
        data := diskRead S.disk pid }).getD f emptyFrame =
      { pageId := pid, pinCount := 0, isDirty := false,
        data := diskRead S.disk pid } :=
    frames_getD_set_self S.pages f _ hf
  show (S.pages.set f
      { pageId := pid, pinCount := 0, isDirty := false,
        data := diskRead S.disk pid }).set f
      { ((S.pages.set f
          { pageId := pid, pinCount := 0, isDirty := false,
            data := diskRead S.disk pid }).getD f emptyFrame) with
        pinCount := ((S.pages.set f
          { pageId := pid, pinCount := 0, isDirty := false,
            data := diskRead S.disk pid }).getD f emptyFrame).pinCount + 1 } = _
  rw [hA, List.set_set]

theorem fi_pageTable (S : BPMState) (pid : Int) (f : Nat)
    (hf : f < S.pages.length) :
    (fetchInstall S pid f).pageTable = ainsert S.pageTable pid f := by
  have hA : (S.pages.set f
      { pageId := pid, pinCount := 0, isDirty := false,
        data := diskRead S.disk pid }).getD f emptyFrame =
      { pageId := pid, pinCount := 0, isDirty := false,
        data := diskRead S.disk pid } :=
    frames_getD_set_self S.pages f _ hf
  show ainsert S.pageTable ((S.pages.set f
      { pageId := pid, pinCount := 0, isDirty := false,
        data := diskRead S.disk pid }).getD f emptyFrame).pageId f = _
  rw [hA]

theorem fi_freeList (S : BPMState) (pid : Int) (f : Nat) :
    (fetchInstall S pid f).freeList = S.freeList := rfl

theorem fi_replacer (S : BPMState) (pid : Int) (f : Nat) :
    (fetchInstall S pid f).replacer =
      setEvictable (recordAccess S.replacer f) f false := rfl

theorem fi_nextPageId (S : BPMState) (pid : Int) (f : Nat) :
    (fetchInstall S pid f).nextPageId = S.nextPageId := rfl

theorem fi_disk (S : BPMState) (pid : Int) (f : Nat) :
    (fetchInstall S pid f).disk = S.disk := rfl

theorem fetchHit_pages (s : BPMState) (f : Nat) (hf : f < s.pages.length) :
    (pinPageToFrame (setFrame s f { getFrame s f with isDirty := true }) f).pages =
      s.pages.set f
        { pageId := (getFrame s f).pageId
          pinCount := (getFrame s f).pinCount + 1
          isDirty := true
          data := (getFrame s f).data } := by
  have hA : (s.pages.set f { getFrame s f with isDirty := true }).getD f
      emptyFrame = { getFrame s f with isDirty := true } :=
    frames_getD_set_self s.pages f _ hf
  show (s.pages.set f { getFrame s f with isDirty := true }).set f
      { ((s.pages.set f { getFrame s f with isDirty := true }).getD f
          emptyFrame) with
        pinCount := ((s.pages.set f { getFrame s f with isDirty := true }).getD f
          emptyFrame).pinCount + 1 } = _
  rw [hA, List.set_set]

theorem fetchHit_pageTable (s : BPMState) (f : Nat) (hf : f < s.pages.length) :
    (pinPageToFrame (setFrame s f
      { getFrame s f with isDirty := true }) f).pageTable =
      ainsert s.pageTable (getFrame s f).pageId f := by
  have hA : (s.pages.set f { getFrame s f with isDirty := true }).getD f
      emptyFrame = { getFrame s f with isDirty := true } :=
    frames_getD_set_self s.pages f _ hf
  show ainsert s.pageTable ((s.pages.set f
      { getFrame s f with isDirty := true }).getD f emptyFrame).pageId f = _
  rw [hA]

theorem wf_fetchPage {s : BPMState} (h : WF s) (pid : Int) :
    WF (fetchPage s pid).2 := by
  by_cases hpid : pid = INVALID_PAGE_ID
  · rw [fetch_invalid s pid hpid]
    exact h
  · cases hl : alookup s.pageTable pid with
    | some f =>
      have hf := h.tableLt pid f hl
      have hkey := h.tableAgree pid f hl
      have hnf := h.tableNotFree pid f hl
      have hbody := fetch_hit_body s pid f hpid hl
      have hpages : ((fetchPage s pid).2).pages = s.pages.set f
          { pageId := pid, pinCount := (getFrame s f).pinCount + 1,
            isDirty := true, data := (getFrame s f).data } := by
        rw [hbody, fetchHit_pages s f hf, ← hkey]
      have htable : ((fetchPage s pid).2).pageTable =
          ainsert (aerase s.pageTable pid) pid f := by
        rw [hbody, fetchHit_pageTable s f hf, hkey, ainsert_aerase_self]
      have hrep : ((fetchPage s pid).2).replacer =
          setEvictable (recordAccess s.replacer f) f false := by
        rw [hbody]
        rfl
      have hflq : ((fetchPage s pid).2).freeList = s.freeList := by
        rw [hbody]
        rfl
      have hnq : ((fetchPage s pid).2).nextPageId = s.nextPageId := by
        rw [hbody]
        rfl
      refine wf_install s ((fetchPage s pid).2) h f hf pid pid
        (getFrame s f).data ((getFrame s f).pinCount + 1) true (by omega)
        s.replacer hpages htable ?_ ?_ ?_ hrep (wf_rwf h)
        (fun kv hkv => hkv) (fun g _ => rfl) ?_ hpid hkey
      · intro g hg
        rw [hflq] at hg
        exact ⟨hg, fun he => hnf (he ▸ hg)⟩
      · rw [hflq]
        exact h.freeNodup
      · intro g hgmem hgne
        rw [hflq]
        exact hgmem
      · rw [hnq]
        exact h.nextNonneg
    | none =>
      cases hfree : s.freeList with
      | cons f rest =>
        have hf : f < s.pages.length :=
          h.freeLt f (by rw [hfree]; exact List.mem_cons_self _ _)
        have hnodup := h.freeNodup
        rw [hfree] at hnodup
        have hbody := fetch_miss_free_body s pid f rest hpid hl hfree
        have hfP : f < (npPrep { s with freeList := rest } f).pages.length := by
          rw [npPrep_pages]
          exact hf
        have hpages : ((fetchPage s pid).2).pages = s.pages.set f
            { pageId := pid, pinCount := 1, isDirty := false,
              data := diskRead (npPrep { s with freeList := rest } f).disk pid } := by
          rw [hbody, fi_pages _ pid f hfP, npPrep_pages]
        have htable : ((fetchPage s pid).2).pageTable =
            ainsert (aerase s.pageTable (getFrame s f).pageId) pid f := by
          rw [hbody, fi_pageTable _ pid f hfP, npPrep_pageTable]
          rfl
        have hfl : ((fetchPage s pid).2).freeList = rest := by
          rw [hbody, fi_freeList, npPrep_freeList]
        have hrep : ((fetchPage s pid).2).replacer =
            setEvictable (recordAccess s.replacer f) f false := by
          rw [hbody, fi_replacer, npPrep_replacer]
        have hnq : ((fetchPage s pid).2).nextPageId = s.nextPageId := by
          rw [hbody, fi_nextPageId, npPrep_nextPageId]
        refine wf_install s ((fetchPage s pid).2) h f hf pid (getFrame s f).pageId
          (diskRead (npPrep { s with freeList := rest } f).disk pid) 1 false
          Nat.one_pos s.replacer hpages htable ?_ ?_ ?_ hrep (wf_rwf h)
          (fun kv hkv => hkv) (fun g _ => rfl) ?_ hpid rfl
        · intro g hg
          rw [hfl] at hg
          constructor
          · rw [hfree]
            exact List.mem_cons_of_mem _ hg
          · intro he
            subst he
            exact (List.nodup_cons.mp hnodup).1 hg
        · rw [hfl]
          exact (List.nodup_cons.mp hnodup).2
        · intro g hgmem hgne
          rw [hfl]
          rw [hfree] at hgmem
          rcases List.mem_cons.mp hgmem with rfl | hg
          · exact absurd rfl hgne
          · exact hg
        · rw [hnq]
          exact h.nextNonneg
      | nil =>
        rcases evict_cases s.replacer with ⟨hev, heq⟩ | ⟨f, n, hev, hmem, hevict, heq⟩
        · rw [fetch_miss_fail_body s pid hpid hl hfree hev]
          refine ⟨?_, ?_, h.freeLt, h.freeFrame, h.freeNodup, h.tableLt,
            h.tableAgree, h.tableNotFree, h.tableNoInvalid, h.nextNonneg,
            ?_, ?_, ?_, ?_⟩
          · rw [heq]; exact h.rsorted
          · rw [heq]; exact h.rcount
          · rw [heq]; exact h.evictablePin
          · rw [heq]; exact h.storeLt
          · rw [heq]; exact h.pinnedNode
          · rw [heq]; exact h.unpinnedAvail
        · have hf : f < s.pages.length := h.storeLt (f, n) hmem
          have hbody := fetch_miss_evict_body s pid f hpid hl hfree hev
          have hfP : f < (npPrep { s with replacer := (replacerEvict s.replacer).2 }
              f).pages.length := by
            rw [npPrep_pages]
            exact hf
          have hpages : ((fetchPage s pid).2).pages = s.pages.set f
              { pageId := pid, pinCount := 1, isDirty := false,
                data := diskRead (npPrep
                  { s with replacer := (replacerEvict s.replacer).2 } f).disk pid } := by
            rw [hbody, fi_pages _ pid f hfP, npPrep_pages]
          have htable : ((fetchPage s pid).2).pageTable =
              ainsert (aerase s.pageTable (getFrame s f).pageId) pid f := by
            rw [hbody, fi_pageTable _ pid f hfP, npPrep_pageTable]
            rfl
          have hfl : ((fetchPage s pid).2).freeList = s.freeList := by
            rw [hbody, fi_freeList, npPrep_freeList]
          have hrep : ((fetchPage s pid).2).replacer =
              setEvictable (recordAccess (replacerEvict s.replacer).2 f) f false := by
            rw [hbody, fi_replacer, npPrep_replacer]
          have hnq : ((fetchPage s pid).2).nextPageId = s.nextPageId := by
            rw [hbody, fi_nextPageId, npPrep_nextPageId]
          refine wf_install s ((fetchPage s pid).2) h f hf pid
            (getFrame s f).pageId
            (diskRead (npPrep { s with replacer := (replacerEvict s.replacer).2 }
              f).disk pid) 1 false Nat.one_pos (replacerEvict s.replacer).2
            hpages htable ?_ ?_ ?_ hrep ?_ ?_ ?_ ?_ hpid rfl
          · intro g hg
            rw [hfl, hfree] at hg
            cases hg
          · rw [hfl, hfree]
            exact List.nodup_nil
          · intro g hgmem hgne
            rw [hfree] at hgmem
            cases hgmem
          · exact rwf_evict (wf_rwf h)
          · intro kv hkv
            rw [heq] at hkv
            exact mem_aerase hkv
          · intro g hg
            rw [heq]
            show alookup (aerase s.replacer.store f) g = _
            exact alookup_aerase_ne _ f g (fun he => hg he.symm)
          · rw [hnq]
            exact h.nextNonneg

/-- Well-formedness survives an update of one resident frame that keeps its
page id and pin count (covering `FlushPage`, a client data write, and the
`UnpinPage` failure path). -/
theorem wf_setFrame_keep {s : BPMState} (h : WF s) (f : Nat) (fr : Frame)
    (d : Disk) (hf : f < s.pages.length)
    (hpid : fr.pageId = (getFrame s f).pageId)
    (hpin : fr.pinCount = (getFrame s f).pinCount)
    (hnf : f ∉ s.freeList) :
    WF (setFrame { s with disk := d } f fr) := by
  have hget_self : getFrame (setFrame { s with disk := d } f fr) f = fr := by
    show ((s.pages.set f fr).getD f emptyFrame) = fr
    exact frames_getD_set_self s.pages f fr hf
  have hget_ne : ∀ g, g ≠ f →
      getFrame (setFrame { s with disk := d } f fr) g = getFrame s g := by
    intro g hg
    show ((s.pages.set f fr).getD g emptyFrame) = _
    exact frames_getD_set_ne s.pages f g fr (fun he => hg he.symm)
  have hlen : (setFrame { s with disk := d } f fr).pages.length =
      s.pages.length := by
    show (s.pages.set f fr).length = _
    exact List.length_set _ _ _
  refine ⟨h.rsorted, h.rcount, ?_, ?_, h.freeNodup, ?_, ?_, h.tableNotFree,
    h.tableNoInvalid, h.nextNonneg, ?_, ?_, ?_, ?_⟩
  · intro g hg
    rw [hlen]
    exact h.freeLt g hg
  · intro g hg
    rw [hget_ne g (fun he => hnf (he ▸ hg))]
    exact h.freeFrame g hg
  · intro p g hp
    rw [hlen]
    exact h.tableLt p g hp
  · intro p g hp
    by_cases hgf : g = f
    · subst hgf
      rw [hget_self, hpid]
      exact h.tableAgree p g hp
    · rw [hget_ne g hgf]
      exact h.tableAgree p g hp
  · intro kv hkv hkve
    by_cases hgf : kv.1 = f
    · rw [hgf, hget_self, hpin]
      rw [← hgf]
      exact h.evictablePin kv hkv hkve
    · rw [hget_ne kv.1 hgf]
      exact h.evictablePin kv hkv hkve
  · intro kv hkv
    rw [hlen]
    exact h.storeLt kv hkv
  · intro g hg
    by_cases hgf : g = f
    · subst hgf
      rw [hget_self, hpin] at hg
      exact h.pinnedNode g hg
    · rw [hget_ne g hgf] at hg
      exact h.pinnedNode g hg
  · intro g hglen hgpin
    by_cases hgf : g = f
    · subst hgf
      rw [hget_self, hpin] at hgpin
      exact h.unpinnedAvail g (hlen ▸ hglen) hgpin
    · rw [hget_ne g hgf] at hgpin
      exact h.unpinnedAvail g (hlen ▸ hglen) hgpin

theorem wf_writeData {s : BPMState} (h : WF s) (pid : Int) (bytes : PageData) :
    WF (writeData s pid bytes) := by
  cases hl : alookup s.pageTable pid with
  | none =>
    rw [writeData, hl]
    exact h
  | some f =>
    rw [writeData, hl]
    exact wf_setFrame_keep h f _ s.disk (h.tableLt pid f hl) rfl rfl
      (h.tableNotFree pid f hl)

theorem flush_success_body (s : BPMState) (pid : Int) (f : Nat)
    (hcond : ¬(pid = INVALID_PAGE_ID ∨ pid ≥ s.nextPageId))
    (hl : alookup s.pageTable pid = some f) :
    flushPage s pid = (true,
      setFrame { s with disk := diskWrite s.disk pid (getFrame s f).data } f
        { getFrame s f with isDirty := false }) := by
  rw [flushPage, if_neg hcond, hl]

theorem wf_flushPage {s : BPMState} (h : WF s) (pid : Int) :
    WF (flushPage s pid).2 := by
  by_cases hcond : (pid = INVALID_PAGE_ID ∨ pid ≥ s.nextPageId)
  · rw [flushPage, if_pos hcond]
    exact h
  · cases hl : alookup s.pageTable pid with
    | none =>
      rw [flushPage, if_neg hcond, hl]
      exact h
    | some f =>
      rw [flush_success_body s pid f hcond hl]
      exact wf_setFrame_keep h f _ _ (h.tableLt pid f hl) rfl rfl
        (h.tableNotFree pid f hl)

def unpinFrame (fr : Frame) (d : Bool) : Frame := { fr with isDirty := d, pinCount := fr.pinCount - 1 }

theorem unpin_pos_body (s : BPMState) (pid : Int) (d : Bool) (f : Nat)
    (hl : alookup s.pageTable pid = some f)
    (hpin : ¬(getFrame s f).pinCount = 0)
    (hnz : ¬(getFrame s f).pinCount - 1 = 0) :
    unpinPage s pid d = (true, setFrame s f (unpinFrame (getFrame s f) d)) := by
  rw [unpinPage, hl]
  dsimp only
  rw [if_neg hpin, if_neg hnz]
  rfl

theorem unpin_zero_body (s : BPMState) (pid : Int) (d : Bool) (f : Nat)
    (hl : alookup s.pageTable pid = some f)
    (hpin : ¬(getFrame s f).pinCount = 0)
    (hz : (getFrame s f).pinCount - 1 = 0) :
    unpinPage s pid d = (true,
      { setFrame s f (unpinFrame (getFrame s f) d) with
          replacer := setEvictable s.replacer f true }) := by
  rw [unpinPage, hl]
  dsimp only
  rw [if_neg hpin, if_pos hz]
  rfl

theorem wf_unpinPage {s : BPMState} (h : WF s) (pid : Int) (d : Bool) :
    WF (unpinPage s pid d).2 := by
  cases hl : alookup s.pageTable pid with
  | none =>
    rw [(unpin_fail_state s pid d).1 hl]
    exact h
  | some f =>
    have hf := h.tableLt pid f hl
    have hnf := h.tableNotFree pid f hl
    by_cases hpin : (getFrame s f).pinCount = 0
    · rw [(unpin_fail_state s pid d).2 f hl hpin]
      exact wf_setFrame_keep h f _ s.disk hf rfl rfl hnf
    · by_cases hnz : (getFrame s f).pinCount - 1 = 0
      · have hstate : (unpinPage s pid d).2 =
            { setFrame s f (unpinFrame (getFrame s f) d) with
                replacer := setEvictable s.replacer f true } := by
          rw [unpin_zero_body s pid d f hl hpin hnz]
        rw [hstate]
        have hnode : (alookup s.replacer.store f).isSome :=
          h.pinnedNode f (by omega)
        have hget_self : getFrame
            ({ setFrame s f (unpinFrame (getFrame s f) d) with
                replacer := setEvictable s.replacer f true } : BPMState) f =
            unpinFrame (getFrame s f) d :=
          frames_getD_set_self s.pages f _ hf
        have hget_ne : ∀ g, g ≠ f → getFrame
            ({ setFrame s f (unpinFrame (getFrame s f) d) with
                replacer := setEvictable s.replacer f true } : BPMState) g =
            getFrame s g := by
          intro g hg
          exact frames_getD_set_ne s.pages f g _ (fun he => hg he.symm)
        refine ⟨?_, ?_, ?_, ?_, h.freeNodup, ?_, ?_, h.tableNotFree,
          h.tableNoInvalid, h.nextNonneg, ?_, ?_, ?_, ?_⟩
        · exact (rwf_setEvictable (wf_rwf h) f true).1
        · exact (rwf_setEvictable (wf_rwf h) f true).2
        · intro g hg
          show g < (s.pages.set f _).length
          rw [List.length_set]
          exact h.freeLt g hg
        · intro g hg
          rw [hget_ne g (fun he => hnf (he ▸ hg))]
          exact h.freeFrame g hg
        · intro p g hp
          show g < (s.pages.set f _).length
          rw [List.length_set]
          exact h.tableLt p g hp
        · intro p g hp
          by_cases hgf : g = f
          · subst hgf
            rw [hget_self]
            exact h.tableAgree p g hp
          · rw [hget_ne g hgf]
            exact h.tableAgree p g hp
        · intro kv hkv hkve
          rcases mem_setEvictable h.rsorted hkv with ⟨hk1, -⟩ | ⟨hk1, hk2⟩
          · rw [hk1, hget_self]
            show (getFrame s f).pinCount - 1 = 0
            exact hnz
          · rw [hget_ne kv.1 hk2]
            exact h.evictablePin kv hk1 hkve
        · intro kv hkv
          show kv.1 < (s.pages.set f _).length
          rw [List.length_set]
          rcases mem_setEvictable h.rsorted hkv with ⟨hk1, -⟩ | ⟨hk1, -⟩
          · rw [hk1]; exact hf
          · exact h.storeLt kv hk1
        · intro g hg
          by_cases hgf : g = f
          · subst hgf
            rw [hget_self] at hg
            have hcontra : (getFrame s g).pinCount - 1 > 0 := hg
            omega
          · rw [hget_ne g hgf] at hg
            rw [setEvictable_lookup_ne s.replacer f g true hgf]
            exact h.pinnedNode g hg
        · intro g hglen hgpin
          by_cases hgf : g = f
          · subst hgf
            right
            obtain ⟨n, hn⟩ := Option.isSome_iff_exists.mp hnode
            refine ⟨{ n with isEvictable := true }, ?_, rfl⟩
            rw [setEvictable_lookup_self, hn]
            rfl
          · rw [hget_ne g hgf] at hgpin
            have hglen2 : g < s.pages.length := by
              have hx : g < (s.pages.set f (unpinFrame (getFrame s f) d)).length := hglen
              rw [List.length_set] at hx
              exact hx
            rcases h.unpinnedAvail g hglen2 hgpin with hfree | ⟨n, hn, hne⟩
            · exact Or.inl hfree
            · right
              refine ⟨n, ?_, hne⟩
              rw [setEvictable_lookup_ne s.replacer f g true hgf]
              exact hn
      · have hstate : (unpinPage s pid d).2 =
            setFrame s f (unpinFrame (getFrame s f) d) := by
          rw [unpin_pos_body s pid d f hl hpin hnz]
        rw [hstate]
        have hget_self :
            getFrame (setFrame s f (unpinFrame (getFrame s f) d)) f =
            unpinFrame (getFrame s f) d :=
          frames_getD_set_self s.pages f _ hf
        have hget_ne : ∀ g, g ≠ f →
            getFrame (setFrame s f (unpinFrame (getFrame s f) d)) g =
            getFrame s g := by
          intro g hg
          exact frames_getD_set_ne s.pages f g _ (fun he => hg he.symm)
        refine ⟨h.rsorted, h.rcount, ?_, ?_, h.freeNodup, ?_, ?_, h.tableNotFree,
          h.tableNoInvalid, h.nextNonneg, ?_, ?_, ?_, ?_⟩
        · intro g hg
          show g < (s.pages.set f _).length
          rw [List.length_set]
          exact h.freeLt g hg
        · intro g hg
          rw [hget_ne g (fun he => hnf (he ▸ hg))]
          exact h.freeFrame g hg
        · intro p g hp
          show g < (s.pages.set f _).length
          rw [List.length_set]
          exact h.tableLt p g hp
        · intro p g hp
          by_cases hgf : g = f
          · subst hgf
            rw [hget_self]
            exact h.tableAgree p g hp
          · rw [hget_ne g hgf]
            exact h.tableAgree p g hp
        · intro kv hkv hkve
          by_cases hgf : kv.1 = f
          · exfalso
            have hkpin := h.evictablePin kv hkv hkve
            rw [hgf] at hkpin
            omega
          · rw [hget_ne kv.1 hgf]
            exact h.evictablePin kv hkv hkve
        · intro kv hkv
          show kv.1 < (s.pages.set f _).length
          rw [List.length_set]
          exact h.storeLt kv hkv
        · intro g hg
          by_cases hgf : g = f
          · subst hgf
            exact h.pinnedNode g (by omega)
          · rw [hget_ne g hgf] at hg
            exact h.pinnedNode g hg
        · intro g hglen hgpin
          by_cases hgf : g = f
          · subst hgf
            rw [hget_self] at hgpin
            have hzero : (getFrame s g).pinCount - 1 = 0 := hgpin
            exact absurd hzero hnz
          · rw [hget_ne g hgf] at hgpin
            have hglen2 : g < s.pages.length := by
              have hx : g < (s.pages.set f (unpinFrame (getFrame s f) d)).length := hglen
              rw [List.length_set] at hx
              exact hx
            exact h.unpinnedAvail g hglen2 hgpin

theorem wf_deletePage {s : BPMState} (h : WF s) (pid : Int) :
    WF (deletePage s pid).2 := by
  cases hl : alookup s.pageTable pid with
  | none =>
    rw [(delete_page_spec s pid).1 hl]
    exact h
  | some f =>
    by_cases hpin : (getFrame s f).pinCount > 0
    · rw [(delete_page_spec s pid).2.1 f hl hpin]
      exact h
    · have hz : (getFrame s f).pinCount = 0 := by omega
      have hstate : (deletePage s pid).2 = setFrame
          { s with
            pageTable := aerase s.pageTable pid
            freeList := s.freeList ++ [f] } f emptyFrame := by
        rw [(delete_page_spec s pid).2.2 f hl hz]
      rw [hstate]
      have hf := h.tableLt pid f hl
      have hnf := h.tableNotFree pid f hl
      have hagree := h.tableAgree pid f hl
      have hget_self : getFrame (setFrame
          { s with
            pageTable := aerase s.pageTable pid
            freeList := s.freeList ++ [f] } f emptyFrame) f = emptyFrame :=
        frames_getD_set_self s.pages f _ hf
      have hget_ne : ∀ g, g ≠ f → getFrame (setFrame
          { s with
            pageTable := aerase s.pageTable pid
            freeList := s.freeList ++ [f] } f emptyFrame) g = getFrame s g := by
        intro g hg
        exact frames_getD_set_ne s.pages f g _ (fun he => hg he.symm)
      have htlook : ∀ p g, alookup (aerase s.pageTable pid) p = some g →
          p ≠ pid ∧ alookup s.pageTable p = some g ∧ g ≠ f := by
        intro p g hp
        by_cases hpp : p = pid
        · subst hpp
          rw [alookup_aerase_self] at hp
          cases hp
        · rw [alookup_aerase_ne _ _ _ (fun he => hpp he.symm)] at hp
          refine ⟨hpp, hp, ?_⟩
          intro he
          subst he
          exact hpp ((h.tableAgree p g hp).symm.trans hagree)
      refine ⟨h.rsorted, h.rcount, ?_, ?_, ?_, ?_, ?_, ?_, ?_, h.nextNonneg,
        ?_, ?_, ?_, ?_⟩
      · intro g hg
        show g < (s.pages.set f _).length
        rw [List.length_set]
        rcases List.mem_append.mp hg with hg' | hg'
        · exact h.freeLt g hg'
        · rw [List.mem_singleton.mp hg']
          exact hf
      · intro g hg
        rcases List.mem_append.mp hg with hg' | hg'
        · rw [hget_ne g (fun he => hnf (he ▸ hg'))]
          exact h.freeFrame g hg'
        · rw [List.mem_singleton.mp hg']
          exact hget_self
      · show (s.freeList ++ [f]).Nodup
        rw [List.nodup_append]
        exact ⟨h.freeNodup, List.nodup_singleton f,
          fun g hg1 hg2 => hnf ((List.mem_singleton.mp hg2) ▸ hg1)⟩
      · intro p g hp
        show g < (s.pages.set f _).length
        rw [List.length_set]
        exact h.tableLt p g (htlook p g hp).2.1
      · intro p g hp
        obtain ⟨-, hp', hgf⟩ := htlook p g hp
        rw [hget_ne g hgf]
        exact h.tableAgree p g hp'
      · intro p g hp
        obtain ⟨-, hp', hgf⟩ := htlook p g hp
        intro hmem
        rcases List.mem_append.mp hmem with hg' | hg'
        · exact h.tableNotFree p g hp' hg'
        · exact hgf (List.mem_singleton.mp hg')
      · show alookup (aerase s.pageTable pid) INVALID_PAGE_ID = none
        by_cases hpp : pid = INVALID_PAGE_ID
        · rw [← hpp, alookup_aerase_self]
        · rw [alookup_aerase_ne _ _ _ hpp]
          exact h.tableNoInvalid
      · intro kv hkv hkve
        by_cases hgf : kv.1 = f
        · rw [hgf, hget_self]
          rfl
        · rw [hget_ne kv.1 hgf]
          exact h.evictablePin kv hkv hkve
      · intro kv hkv
        show kv.1 < (s.pages.set f _).length
        rw [List.length_set]
        exact h.storeLt kv hkv
      · intro g hg
        by_cases hgf : g = f
        · subst hgf
          rw [hget_self] at hg
          cases hg
        · rw [hget_ne g hgf] at hg
          exact h.pinnedNode g hg
      · intro g hglen hgpin
        by_cases hgf : g = f
        · subst hgf
          left
          exact List.mem_append.mpr (Or.inr (List.mem_singleton.mpr rfl))
        · rw [hget_ne g hgf] at hgpin
          have hglen' : g < s.pages.length := by
            have hx : g < (s.pages.set f _).length := hglen
            rw [List.length_set] at hx
            exact hx
          rcases h.unpinnedAvail g hglen' hgpin with hfree | hnode
          · exact Or.inl (List.mem_append.mpr (Or.inl hfree))
          · exact Or.inr hnode

theorem wf_applyOp {s : BPMState} (h : WF s) (op : Op) : WF (applyOp s op) := by
  cases op with
  | newOp => exact wf_newPage h
  | fetchOp pid => exact wf_fetchPage h pid
  | unpinOp pid d => exact wf_unpinPage h pid d
  | flushOp pid => exact wf_flushPage h pid
  | deleteOp pid => exact wf_deletePage h pid
  | writeOp pid bytes => exact wf_writeData h pid bytes

theorem wf_runOps {s : BPMState} (h : WF s) (ops : List Op) :
    WF (runOps s ops) := by
  induction ops generalizing s with
  | nil => exact h
  | cons op rest ih => exact ih (wf_applyOp h op)

/-! ## Claim theorems: reachable-state properties of `NewPage` and the
frame-acquisition path -/

/-- When `curr_size_` agrees with the number of evictable nodes and `Evict`
fails, no node in the store is evictable. -/
theorem evict_none_all (r : Replacer)
    (hcnt : r.currSize = countEvictable r.store)
    (hev : (replacerEvict r).1 = none) :
    ∀ kv ∈ r.store, kv.2.isEvictable = false := by
  obtain ⟨hgo1, -⟩ := evictScan_go r.clock r.store none (by intro a ha; cases ha)
  by_cases hz : r.currSize = 0
  · rw [hz] at hcnt
    exact countEvictable_eq_zero.mp hcnt.symm
  · cases hscan : r.store.foldl (evictStep r.clock) none with
    | none =>
      exact (hgo1.mp hscan).2
    | some b =>
      exfalso
      rcases b with ⟨fid, n⟩
      rw [replacerEvict, tick] at hev
      simp only [hz, if_false, evictScan] at hev
      rw [hscan] at hev
      exact Option.noConfusion hev

/-- In a well-formed state, any frame id handed out by `GetAvailableFrameId`
(a free-list pop or a replacer eviction) belongs to an unpinned frame. -/
theorem avail_unpinned {s : BPMState} (h : WF s) (f : Nat)
    (hav : (getAvailableFrameId s).1 = some f) :
    (getFrame s f).pinCount = 0 := by
  cases hfree : s.freeList with
  | cons g rest =>
    rw [getAvailableFrameId_eq_free s g rest hfree] at hav
    have hgf : g = f := Option.some.inj hav
    subst hgf
    rw [h.freeFrame g (by rw [hfree]; exact List.mem_cons_self _ _)]
    rfl
  | nil =>
    rw [getAvailableFrameId_eq_evict s hfree] at hav
    rcases evict_cases s.replacer with ⟨hev, -⟩ | ⟨fid, n, hev, hmem, hevict, -⟩
    · rw [hev] at hav
      exact Option.noConfusion hav
    · rw [hev] at hav
      have hff : fid = f := Option.some.inj hav
      subst hff
      exact h.evictablePin (fid, n) hmem hevict

/-- In a well-formed state, `NewPage` fails exactly when every frame of the
pool is pinned. -/
theorem newPage_none_iff {s : BPMState} (h : WF s) :
    ((newPage s).1 = none ↔
      ∀ f, f < s.pages.length → (getFrame s f).pinCount > 0) := by
  constructor
  · intro hnone f hf
    by_contra hpin
    have hz : (getFrame s f).pinCount = 0 := by omega
    cases hfree : s.freeList with
    | cons g rest =>
      rw [newPage_free_body s g rest hfree] at hnone
      exact Option.noConfusion hnone
    | nil =>
      cases hev : (replacerEvict s.replacer).1 with
      | some g =>
        rw [newPage_evict_body s g hfree hev] at hnone
        exact Option.noConfusion hnone
      | none =>
        rcases h.unpinnedAvail f hf hz with hmf | ⟨nn, hn, hne⟩
        · rw [hfree] at hmf
          cases hmf
        · have hall := evict_none_all s.replacer h.rcount hev
          have hfalse := hall (f, nn) (alookup_mem hn)
          exact Bool.noConfusion (hne.symm.trans hfalse)
  · intro hall
    cases hfree : s.freeList with
    | cons g rest =>
      exfalso
      have hg := h.freeFrame g (by rw [hfree]; exact List.mem_cons_self _ _)
      have hlt := h.freeLt g (by rw [hfree]; exact List.mem_cons_self _ _)
      have hgt := hall g hlt
      rw [hg] at hgt
      exact Nat.lt_irrefl 0 hgt
    | nil =>
      cases hev : (replacerEvict s.replacer).1 with
      | none =>
        rw [newPage_fail_body s hfree hev]
      | some g =>
        exfalso
        rcases evict_cases s.replacer with ⟨hev2, -⟩ | ⟨fid, nn, hev2, hmem, hevict, -⟩
        · rw [hev2] at hev
          exact Option.noConfusion hev
        · have hfg : fid = g := Option.some.inj (hev2.symm.trans hev)
          subst hfg
          have hpin0 : (getFrame s fid).pinCount = 0 :=
            h.evictablePin (fid, nn) hmem hevict
          have hgt := hall fid (h.storeLt (fid, nn) hmem)
          omega

/-- In a well-formed state, a successful `NewPage` hands back the freshly
allocated page id `next_page_id_` (then incremented), maps it to the chosen
frame, and that frame holds a pinned-once, clean, zeroed page. -/
theorem newPage_success {s : BPMState} (h : WF s) (p : Int) (f : Nat)
    (hsucc : (newPage s).1 = some (p, f)) :
    p = s.nextPageId ∧
    ((newPage s).2).nextPageId = s.nextPageId + 1 ∧
    alookup ((newPage s).2).pageTable p = some f ∧
    getFrame ((newPage s).2) f =
      { pageId := p, pinCount := 1, isDirty := false, data := zeroPage } := by
  cases hfree : s.freeList with
  | cons g rest =>
    have hf : g < s.pages.length :=
      h.freeLt g (by rw [hfree]; exact List.mem_cons_self _ _)
    have hfP : g < (npPrep { s with freeList := rest } g).pages.length := by
      rw [npPrep_pages]
      exact hf
    have hbody := newPage_free_body s g rest hfree
    rw [hbody] at hsucc
    have hpair : ((newPageHelper (npPrep { s with freeList := rest } g) g).1, g)
        = (p, f) := Option.some.inj hsucc
    have hp : (newPageHelper (npPrep { s with freeList := rest } g) g).1 = p :=
      congrArg Prod.fst hpair
    have hgf : g = f := congrArg Prod.snd hpair
    subst hgf
    have hpv : p = s.nextPageId := by
      rw [← hp, nph_fst, npPrep_nextPageId]
    have hpages : ((newPage s).2).pages = s.pages.set g
        { pageId := s.nextPageId, pinCount := 1, isDirty := false,
          data := zeroPage } := by
      rw [hbody, nph_pages _ g hfP, npPrep_pages, npPrep_nextPageId]
    have htable : ((newPage s).2).pageTable =
        ainsert (aerase s.pageTable (getFrame s g).pageId) s.nextPageId g := by
      rw [hbody, nph_pageTable _ g hfP, npPrep_pageTable, npPrep_nextPageId]
      rfl
    have hnpi : ((newPage s).2).nextPageId = s.nextPageId + 1 := by
      rw [hbody, nph_nextPageId, npPrep_nextPageId]
    refine ⟨hpv, hnpi, ?_, ?_⟩
    · rw [htable, hpv]
      exact alookup_ainsert_self _ _ _
    · show ((newPage s).2).pages.getD g emptyFrame = _
      rw [hpages, frames_getD_set_self s.pages g _ hf, hpv]
  | nil =>
    cases hev : (replacerEvict s.replacer).1 with
    | none =>
      rw [newPage_fail_body s hfree hev] at hsucc
      exact Option.noConfusion hsucc
    | some g =>
      have hex : ∃ nn, (g, nn) ∈ s.replacer.store := by
        rcases evict_cases s.replacer with ⟨hev2, -⟩ | ⟨fid, nn, hev2, hmem, -, -⟩
        · rw [hev2] at hev
          exact Option.noConfusion hev
        · have hfg : fid = g := Option.some.inj (hev2.symm.trans hev)
          subst hfg
          exact ⟨nn, hmem⟩
      obtain ⟨nn, hmem⟩ := hex
      have hf : g < s.pages.length := h.storeLt (g, nn) hmem
      have hfP : g < (npPrep
          { s with replacer := (replacerEvict s.replacer).2 } g).pages.length := by
        rw [npPrep_pages]
        exact hf
      have hbody := newPage_evict_body s g hfree hev
      rw [hbody] at hsucc
      have hpair : ((newPageHelper (npPrep
          { s with replacer := (replacerEvict s.replacer).2 } g) g).1, g)
          = (p, f) := Option.some.inj hsucc
      have hp : (newPageHelper (npPrep
          { s with replacer := (replacerEvict s.replacer).2 } g) g).1 = p :=
        congrArg Prod.fst hpair
      have hgf : g = f := congrArg Prod.snd hpair
      subst hgf
      have hpv : p = s.nextPageId := by
        rw [← hp, nph_fst, npPrep_nextPageId]
      have hpages : ((newPage s).2).pages = s.pages.set g
          { pageId := s.nextPageId, pinCount := 1, isDirty := false,
            data := zeroPage } := by
        rw [hbody, nph_pages _ g hfP, npPrep_pages, npPrep_nextPageId]
      have htable : ((newPage s).2).pageTable =
          ainsert (aerase s.pageTable (getFrame s g).pageId) s.nextPageId g := by
        rw [hbody, nph_pageTable _ g hfP, npPrep_pageTable, npPrep_nextPageId]
        rfl
      have hnpi : ((newPage s).2).nextPageId = s.nextPageId + 1 := by
        rw [hbody, nph_nextPageId, npPrep_nextPageId]
      refine ⟨hpv, hnpi, ?_, ?_⟩
      · rw [htable, hpv]
        exact alookup_ainsert_self _ _ _
      · show ((newPage s).2).pages.getD g emptyFrame = _
        rw [hpages, frames_getD_set_self s.pages g _ hf, hpv]

/-- C1: eviction safety.  In every state reachable from a fresh pool by any
sequence of the public operations (`new_page`, `fetch_page`, `unpin_page`,
`flush_page`, `delete_page`, and client writes into pinned frames), whenever
`GetAvailableFrameId` — the frame-acquisition step shared by `NewPage` and
`DoFetchPage`, free-list pop or replacer eviction — selects a frame for
reuse, that frame's pin count is 0.  This covers runs in which `DeletePage`
returns a frame to the free list while its replacer node is left behind:
the stale node stays associated with an unpinned, reset frame. -/
theorem eviction_safety (n k : Nat) (ops : List Op) (f : Nat)
    (hav : (getAvailableFrameId (runOps (bpmInit n k) ops)).1 = some f) :
    (getFrame (runOps (bpmInit n k) ops) f).pinCount = 0 :=
  avail_unpinned (wf_runOps (wf_init n k) ops) f hav

/-- Witness for `eviction_safety`: a one-frame pool where the only page has
been created and unpinned; the replacer then hands frame 0 out again. -/
theorem eviction_safety_witness :
    (getAvailableFrameId
      (runOps (bpmInit 1 2) [Op.newOp, Op.unpinOp 0 false])).1 = some 0 ∧
    (getFrame (runOps (bpmInit 1 2) [Op.newOp, Op.unpinOp 0 false]) 0).pinCount
      = 0 :=
  ⟨by decide, eviction_safety 1 2 [Op.newOp, Op.unpinOp 0 false] 0 (by decide)⟩

/-- C6: in every reachable buffer pool state, `new_page` returns `none` iff
every frame has `pin_count > 0`; on success the returned page id is the old
`next_page_id_` (which is incremented), the page table maps it to the
returned frame, and that frame has `pin_count = 1`, `is_dirty = false`, and
zeroed bytes. -/
theorem new_page_spec (n k : Nat) (ops : List Op) :
    ((newPage (runOps (bpmInit n k) ops)).1 = none ↔
      ∀ f, f < (runOps (bpmInit n k) ops).pages.length →
        (getFrame (runOps (bpmInit n k) ops) f).pinCount > 0) ∧
    (∀ p f, (newPage (runOps (bpmInit n k) ops)).1 = some (p, f) →
      p = (runOps (bpmInit n k) ops).nextPageId ∧
      ((newPage (runOps (bpmInit n k) ops)).2).nextPageId =
        (runOps (bpmInit n k) ops).nextPageId + 1 ∧
      alookup ((newPage (runOps (bpmInit n k) ops)).2).pageTable p = some f ∧
      getFrame ((newPage (runOps (bpmInit n k) ops)).2) f =
        { pageId := p, pinCount := 1, isDirty := false, data := zeroPage }) :=
  ⟨newPage_none_iff (wf_runOps (wf_init n k) ops),
   fun p f hs => newPage_success (wf_runOps (wf_init n k) ops) p f hs⟩

/-- Witness for `new_page_spec`: on a fresh one-frame pool, `new_page`
allocates page 0 into frame 0 with the stated postconditions, and in the
state where that page stays pinned a second `new_page` fails. -/
theorem new_page_spec_witness :
    ((newPage (runOps (bpmInit 1 2) [])).1 = some (0, 0) ∧
      alookup ((newPage (runOps (bpmInit 1 2) [])).2).pageTable 0 = some 0 ∧
      getFrame ((newPage (runOps (bpmInit 1 2) [])).2) 0 =
        { pageId := 0, pinCount := 1, isDirty := false, data := zeroPage }) ∧
    ((newPage (runOps (bpmInit 1 2) [Op.newOp])).1 = none ∧
      ∀ f, f < (runOps (bpmInit 1 2) [Op.newOp]).pages.length →
        (getFrame (runOps (bpmInit 1 2) [Op.newOp]) f).pinCount > 0) := by
  refine ⟨⟨by decide, ?_, ?_⟩, ⟨?_, ?_⟩⟩
  · exact ((new_page_spec 1 2 []).2 0 0 (by decide)).2.2.1
  · exact ((new_page_spec 1 2 []).2 0 0 (by decide)).2.2.2
  · exact ((new_page_spec 1 2 [Op.newOp]).1).mpr (by decide)
  · exact ((new_page_spec 1 2 [Op.newOp]).1).mp (by decide)

/-! ## Claim theorems: the write/unpin/refetch round trip -/

/-- The disk contents after the conditional dirty write-back that precedes a
frame's reuse in `NewPage` / `DoFetchPage`. -/
def installDisk (s : BPMState) (g : Nat) : Disk :=
  if (getFrame s g).isDirty then
    diskWrite s.disk (getFrame s g).pageId (getFrame s g).data
  else s.disk

theorem diskRead_diskWrite_self (d : Disk) (pid : Int) (bytes : PageData) :
    diskRead (diskWrite d pid bytes) pid = bytes := by
  rw [diskRead, diskWrite, alookup_ainsert_self]
  rfl

theorem diskRead_diskWrite_ne (d : Disk) (q pid : Int) (bytes : PageData)
    (h : q ≠ pid) : diskRead (diskWrite d q bytes) pid = diskRead d pid := by
  rw [diskRead, diskWrite, alookup_ainsert_ne _ _ _ _ h, diskRead]

theorem installDisk_read_ne (s : BPMState) (g : Nat) (pid : Int)
    (h : (getFrame s g).pageId ≠ pid) :
    diskRead (installDisk s g) pid = diskRead s.disk pid := by
  unfold installDisk
  split
  · exact diskRead_diskWrite_ne _ _ _ _ h
  · rfl

/-- The middle operations the round-trip law quantifies over: `new_page`,
and `fetch_page` / `unpin_page` on pages other than the tracked one. -/
def avoidsPage (p : Int) : Op → Bool
  | Op.newOp => true
  | Op.fetchOp q => decide (q ≠ p)
  | Op.unpinOp q _ => decide (q ≠ p)
  | _ => false

/-- The round-trip tracking predicate for page `p` carrying bytes `B`:
either `p` is resident in a dirty frame holding `B` and no other frame
claims page id `p`, or `p` is not resident, its bytes on disk are `B`, and
no frame claims page id `p`. -/
def rtCore (p : Int) (B : PageData) (s : BPMState) : Prop :=
  0 ≤ p ∧ p < s.nextPageId ∧
  ((∃ f, alookup s.pageTable p = some f ∧
      (getFrame s f).data = B ∧ (getFrame s f).isDirty = true ∧
      (∀ g, g < s.pages.length → g ≠ f → (getFrame s g).pageId ≠ p)) ∨
   (alookup s.pageTable p = none ∧ diskRead s.disk p = B ∧
      (∀ g, g < s.pages.length → (getFrame s g).pageId ≠ p)))

/-- The tracking predicate survives an update of the frame that the table
maps to some other page `q ≠ p` (covering the `fetch_page` hit path and all
`unpin_page` paths). -/
theorem rtCore_other_set (p : Int) (B : PageData) {s : BPMState} (hWF : WF s)
    (hC : rtCore p B s) (q : Int) (hq : q ≠ p) (fq : Nat)
    (hl : alookup s.pageTable q = some fq) (fr : Frame)
    (hpid : fr.pageId = (getFrame s fq).pageId) (s' : BPMState)
    (hpages : s'.pages = s.pages.set fq fr)
    (htable : s'.pageTable = s.pageTable ∨
      s'.pageTable = ainsert s.pageTable (getFrame s fq).pageId fq)
    (hdisk : s'.disk = s.disk) (hnext : s'.nextPageId = s.nextPageId) :
    rtCore p B s' := by
  obtain ⟨h0, h1, hres⟩ := hC
  have hqa : (getFrame s fq).pageId = q := hWF.tableAgree q fq hl
  have hlenp : s'.pages.length = s.pages.length := by
    rw [hpages, List.length_set]
  have hlp : alookup s'.pageTable p = alookup s.pageTable p := by
    rcases htable with ht | ht
    · rw [ht]
    · rw [ht, hqa, alookup_ainsert_ne _ _ _ _ hq]
  have hgf_ne : ∀ g, g ≠ fq → getFrame s' g = getFrame s g := by
    intro g hg
    show s'.pages.getD g emptyFrame = _
    rw [hpages]
    exact frames_getD_set_ne _ _ _ _ (fun he => hg he.symm)
  have hgf_self : getFrame s' fq = fr := by
    show s'.pages.getD fq emptyFrame = fr
    rw [hpages]
    exact frames_getD_set_self _ _ _ (hWF.tableLt q fq hl)
  refine ⟨h0, by rw [hnext]; exact h1, ?_⟩
  rcases hres with ⟨f, hf, hdata, hdirty, huniq⟩ | ⟨hnone, hdiskB, hnoh⟩
  · have hfqf : fq ≠ f := by
      intro he
      have hfa : (getFrame s f).pageId = p := hWF.tableAgree p f hf
      rw [he] at hqa
      exact hq (hqa.symm.trans hfa)
    refine Or.inl ⟨f, ?_, ?_, ?_, ?_⟩
    · rw [hlp]
      exact hf
    · rw [hgf_ne f (fun he => hfqf he.symm)]
      exact hdata
    · rw [hgf_ne f (fun he => hfqf he.symm)]
      exact hdirty
    · intro g hg hgf
      by_cases hgq : g = fq
      · rw [hgq, hgf_self, hpid, hqa]
        exact hq
      · rw [hgf_ne g hgq]
        exact huniq g (hlenp ▸ hg) hgf
  · refine Or.inr ⟨?_, ?_, ?_⟩
    · rw [hlp]
      exact hnone
    · rw [hdisk]
      exact hdiskB
    · intro g hg
      by_cases hgq : g = fq
      · rw [hgq, hgf_self, hpid, hqa]
        exact hq
      · rw [hgf_ne g hgq]
        exact hnoh g (hlenp ▸ hg)

/-- The tracking predicate survives a frame reinstall (eviction or free-list
reuse followed by an install of page `newPid ≠ p`), as performed by
`NewPage` and the `DoFetchPage` miss path: the write-back either persists
`B` (when the reused frame is `p`'s) or touches a different disk page. -/
theorem rtCore_install (p : Int) (B : PageData) {s : BPMState} (hWF : WF s)
    (hC : rtCore p B s) (s' : BPMState) (g : Nat) (hg : g < s.pages.length)
    (newPid : Int) (hne : newPid ≠ p) (bytes : PageData) (pc : Nat)
    (dflag : Bool)
    (hpages : s'.pages = s.pages.set g
      { pageId := newPid, pinCount := pc, isDirty := dflag, data := bytes })
    (htable : s'.pageTable =
      ainsert (aerase s.pageTable (getFrame s g).pageId) newPid g)
    (hdisk : s'.disk = installDisk s g)
    (hnext : s.nextPageId ≤ s'.nextPageId) :
    rtCore p B s' := by
  obtain ⟨h0, h1, hres⟩ := hC
  have hlenp : s'.pages.length = s.pages.length := by
    rw [hpages, List.length_set]
  have hgf_ne : ∀ g2, g2 ≠ g → getFrame s' g2 = getFrame s g2 := by
    intro g2 h2
    show s'.pages.getD g2 emptyFrame = _
    rw [hpages]
    exact frames_getD_set_ne _ _ _ _ (fun he => h2 he.symm)
  have hgf_self : getFrame s' g =
      { pageId := newPid, pinCount := pc, isDirty := dflag, data := bytes } := by
    show s'.pages.getD g emptyFrame = _
    rw [hpages]
    exact frames_getD_set_self _ _ _ hg
  refine ⟨h0, lt_of_lt_of_le h1 hnext, ?_⟩
  rcases hres with ⟨f, hf, hdata, hdirty, huniq⟩ | ⟨hnone, hdiskB, hnoh⟩
  · have hfa : (getFrame s f).pageId = p := hWF.tableAgree p f hf
    by_cases hgf : g = f
    · refine Or.inr ⟨?_, ?_, ?_⟩
      · rw [htable, alookup_ainsert_ne _ _ _ _ hne, hgf, hfa,
          alookup_aerase_self]
      · rw [hdisk]
        unfold installDisk
        rw [hgf, if_pos hdirty, hfa, hdata]
        exact diskRead_diskWrite_self _ _ _
      · intro g2 hg2
        by_cases h2 : g2 = g
        · rw [h2, hgf_self]
          exact hne
        · rw [hgf_ne g2 h2]
          exact huniq g2 (hlenp ▸ hg2) (hgf ▸ h2)
    · have hrg : (getFrame s g).pageId ≠ p := huniq g hg hgf
      refine Or.inl ⟨f, ?_, ?_, ?_, ?_⟩
      · rw [htable, alookup_ainsert_ne _ _ _ _ hne,
          alookup_aerase_ne _ _ _ hrg]
        exact hf
      · rw [hgf_ne f (fun he => hgf he.symm)]
        exact hdata
      · rw [hgf_ne f (fun he => hgf he.symm)]
        exact hdirty
      · intro g2 hg2 h2f
        by_cases h2 : g2 = g
        · rw [h2, hgf_self]
          exact hne
        · rw [hgf_ne g2 h2]
          exact huniq g2 (hlenp ▸ hg2) h2f
  · have hrg : (getFrame s g).pageId ≠ p := hnoh g hg
    refine Or.inr ⟨?_, ?_, ?_⟩
    · rw [htable, alookup_ainsert_ne _ _ _ _ hne,
        alookup_aerase_ne _ _ _ hrg]
      exact hnone
    · rw [hdisk, installDisk_read_ne s g p hrg]
      exact hdiskB
    · intro g2 hg2
      by_cases h2 : g2 = g
      · rw [h2, hgf_self]
        exact hne
      · rw [hgf_ne g2 h2]
        exact hnoh g2 (hlenp ▸ hg2)

/-- One allowed middle operation preserves the tracking predicate. -/
theorem rtCore_step (p : Int) (B : PageData) {s : BPMState} (hWF : WF s)
    (hC : rtCore p B s) (op : Op) (hop : avoidsPage p op = true) :
    rtCore p B (applyOp s op) := by
  cases op with
  | flushOp pid => exact Bool.noConfusion hop
  | deleteOp pid => exact Bool.noConfusion hop
  | writeOp pid bytes => exact Bool.noConfusion hop
  | newOp =>
    show rtCore p B (newPage s).2
    have hne : s.nextPageId ≠ p := by
      have h1 := hC.2.1
      omega
    cases hfree : s.freeList with
    | cons g rest =>
      have hg : g < s.pages.length :=
        hWF.freeLt g (by rw [hfree]; exact List.mem_cons_self _ _)
      have hfP : g < (npPrep { s with freeList := rest } g).pages.length := by
        rw [npPrep_pages]
        exact hg
      have hbody := newPage_free_body s g rest hfree
      have hpages : ((newPage s).2).pages = s.pages.set g
          { pageId := s.nextPageId, pinCount := 1, isDirty := false,
            data := zeroPage } := by
        rw [hbody, nph_pages _ g hfP, npPrep_pages, npPrep_nextPageId]
      have htable : ((newPage s).2).pageTable =
          ainsert (aerase s.pageTable (getFrame s g).pageId) s.nextPageId g := by
        rw [hbody, nph_pageTable _ g hfP, npPrep_pageTable, npPrep_nextPageId]
        rfl
      have hdisk : ((newPage s).2).disk = installDisk s g := by
        rw [hbody, nph_disk, npPrep_disk]
        rfl
      have hnpi : ((newPage s).2).nextPageId = s.nextPageId + 1 := by
        rw [hbody, nph_nextPageId, npPrep_nextPageId]
      exact rtCore_install p B hWF hC _ g hg s.nextPageId hne zeroPage 1 false
        hpages htable hdisk (by rw [hnpi]; omega)
    | nil =>
      cases hev : (replacerEvict s.replacer).1 with
      | none =>
        rw [newPage_fail_body s hfree hev]
        exact hC
      | some g =>
        have hex : ∃ nn, (g, nn) ∈ s.replacer.store := by
          rcases evict_cases s.replacer with ⟨hev2, -⟩ | ⟨fid, nn, hev2, hmem, -, -⟩
          · rw [hev2] at hev
            exact Option.noConfusion hev
          · have hfg : fid = g := Option.some.inj (hev2.symm.trans hev)
            subst hfg
            exact ⟨nn, hmem⟩
        obtain ⟨nn, hmem⟩ := hex
        have hg : g < s.pages.length := hWF.storeLt (g, nn) hmem
        have hfP : g < (npPrep
            { s with replacer := (replacerEvict s.replacer).2 } g).pages.length := by
          rw [npPrep_pages]
          exact hg
        have hbody := newPage_evict_body s g hfree hev
        have hpages : ((newPage s).2).pages = s.pages.set g
            { pageId := s.nextPageId, pinCount := 1, isDirty := false,
              data := zeroPage } := by
          rw [hbody, nph_pages _ g hfP, npPrep_pages, npPrep_nextPageId]
        have htable : ((newPage s).2).pageTable =
            ainsert (aerase s.pageTable (getFrame s g).pageId) s.nextPageId g := by
          rw [hbody, nph_pageTable _ g hfP, npPrep_pageTable, npPrep_nextPageId]
          rfl
        have hdisk : ((newPage s).2).disk = installDisk s g := by
          rw [hbody, nph_disk, npPrep_disk]
          rfl
        have hnpi : ((newPage s).2).nextPageId = s.nextPageId + 1 := by
          rw [hbody, nph_nextPageId, npPrep_nextPageId]
        exact rtCore_install p B hWF hC _ g hg s.nextPageId hne zeroPage 1 false
          hpages htable hdisk (by rw [hnpi]; omega)
  | fetchOp q =>
    have hqp : q ≠ p := of_decide_eq_true hop
    show rtCore p B (fetchPage s q).2
    by_cases hinv : q = INVALID_PAGE_ID
    · rw [fetch_invalid s q hinv]
      exact hC
    · cases hl : alookup s.pageTable q with
      | some fq =>
        have hflen := hWF.tableLt q fq hl
        rw [fetch_hit_body s q fq hinv hl]
        exact rtCore_other_set p B hWF hC q hqp fq hl
          { pageId := (getFrame s fq).pageId, pinCount := (getFrame s fq).pinCount + 1, isDirty := true, data := (getFrame s fq).data }
          rfl _ (fetchHit_pages s fq hflen)
          (Or.inr (fetchHit_pageTable s fq hflen)) rfl rfl
      | none =>
        cases hfree : s.freeList with
        | cons g rest =>
          have hg : g < s.pages.length :=
            hWF.freeLt g (by rw [hfree]; exact List.mem_cons_self _ _)
          have hfP : g < (npPrep { s with freeList := rest } g).pages.length := by
            rw [npPrep_pages]
            exact hg
          have hbody := fetch_miss_free_body s q g rest hinv hl hfree
          have hpages : ((fetchPage s q).2).pages = s.pages.set g
              { pageId := q, pinCount := 1, isDirty := false,
                data := diskRead (installDisk s g) q } := by
            rw [hbody, fi_pages _ q g hfP, npPrep_pages, npPrep_disk]
            rfl
          have htable : ((fetchPage s q).2).pageTable =
              ainsert (aerase s.pageTable (getFrame s g).pageId) q g := by
            rw [hbody, fi_pageTable _ q g hfP, npPrep_pageTable]
            rfl
          have hdisk : ((fetchPage s q).2).disk = installDisk s g := by
            rw [hbody, fi_disk, npPrep_disk]
            rfl
          have hnpi : ((fetchPage s q).2).nextPageId = s.nextPageId := by
            rw [hbody, fi_nextPageId, npPrep_nextPageId]
          exact rtCore_install p B hWF hC _ g hg q hqp _ 1 false
            hpages htable hdisk (le_of_eq hnpi.symm)
        | nil =>
          cases hev : (replacerEvict s.replacer).1 with
          | none =>
            rw [fetch_miss_fail_body s q hinv hl hfree hev]
            exact hC
          | some g =>
            have hex : ∃ nn, (g, nn) ∈ s.replacer.store := by
              rcases evict_cases s.replacer with ⟨hev2, -⟩ | ⟨fid, nn, hev2, hmem, -, -⟩
              · rw [hev2] at hev
                exact Option.noConfusion hev
              · have hfg : fid = g := Option.some.inj (hev2.symm.trans hev)
                subst hfg
                exact ⟨nn, hmem⟩
            obtain ⟨nn, hmem⟩ := hex
            have hg : g < s.pages.length := hWF.storeLt (g, nn) hmem
            have hfP : g < (npPrep
                { s with replacer := (replacerEvict s.replacer).2 } g).pages.length := by
              rw [npPrep_pages]
              exact hg
            have hbody := fetch_miss_evict_body s q g hinv hl hfree hev
            have hpages : ((fetchPage s q).2).pages = s.pages.set g
                { pageId := q, pinCount := 1, isDirty := false,
                  data := diskRead (installDisk s g) q } := by
              rw [hbody, fi_pages _ q g hfP, npPrep_pages, npPrep_disk]
              rfl
            have htable : ((fetchPage s q).2).pageTable =
                ainsert (aerase s.pageTable (getFrame s g).pageId) q g := by
              rw [hbody, fi_pageTable _ q g hfP, npPrep_pageTable]
              rfl
            have hdisk : ((fetchPage s q).2).disk = installDisk s g := by
              rw [hbody, fi_disk, npPrep_disk]
              rfl
            have hnpi : ((fetchPage s q).2).nextPageId = s.nextPageId := by
              rw [hbody, fi_nextPageId, npPrep_nextPageId]
            exact rtCore_install p B hWF hC _ g hg q hqp _ 1 false
              hpages htable hdisk (le_of_eq hnpi.symm)
  | unpinOp q d =>
    have hqp : q ≠ p := of_decide_eq_true hop
    show rtCore p B (unpinPage s q d).2
    cases hl : alookup s.pageTable q with
    | none =>
      rw [(unpin_fail_state s q d).1 hl]
      exact hC
    | some fq =>
      by_cases hpin : (getFrame s fq).pinCount = 0
      · rw [(unpin_fail_state s q d).2 fq hl hpin]
        exact rtCore_other_set p B hWF hC q hqp fq hl
          { getFrame s fq with isDirty := d } rfl _ rfl (Or.inl rfl) rfl rfl
      · by_cases hnz : (getFrame s fq).pinCount - 1 = 0
        · rw [unpin_zero_body s q d fq hl hpin hnz]
          exact rtCore_other_set p B hWF hC q hqp fq hl
            (unpinFrame (getFrame s fq) d) rfl _ rfl (Or.inl rfl) rfl rfl
        · rw [unpin_pos_body s q d fq hl hpin hnz]
          exact rtCore_other_set p B hWF hC q hqp fq hl
            (unpinFrame (getFrame s fq) d) rfl _ rfl (Or.inl rfl) rfl rfl

theorem rtCore_runOps (p : Int) (B : PageData) {s : BPMState} (hWF : WF s)
    (hC : rtCore p B s) (mid : List Op)
    (hmid : ∀ op ∈ mid, avoidsPage p op = true) :
    rtCore p B (runOps s mid) := by
  induction mid generalizing s with
  | nil => exact hC
  | cons op rest ih =>
    exact ih (wf_applyOp hWF op)
      (rtCore_step p B hWF hC op (hmid op (List.mem_cons_self _ _)))
      (fun o ho => hmid o (List.mem_cons_of_mem _ ho))

/-- A successful `NewPage` leaves every other frame untouched and preserves
the pool size. -/
theorem newPage_other_frames {s : BPMState} (h : WF s) (p : Int) (f : Nat)
    (hsucc : (newPage s).1 = some (p, f)) :
    ((newPage s).2).pages.length = s.pages.length ∧
    ∀ g, g ≠ f → getFrame ((newPage s).2) g = getFrame s g := by
  cases hfree : s.freeList with
  | cons g0 rest =>
    have hf : g0 < s.pages.length :=
      h.freeLt g0 (by rw [hfree]; exact List.mem_cons_self _ _)
    have hfP : g0 < (npPrep { s with freeList := rest } g0).pages.length := by
      rw [npPrep_pages]
      exact hf
    have hbody := newPage_free_body s g0 rest hfree
    rw [hbody] at hsucc
    have hgf : g0 = f := congrArg Prod.snd (Option.some.inj hsucc)
    subst hgf
    have hpages : ((newPage s).2).pages = s.pages.set g0
        { pageId := s.nextPageId, pinCount := 1, isDirty := false,
          data := zeroPage } := by
      rw [hbody, nph_pages _ g0 hfP, npPrep_pages, npPrep_nextPageId]
    refine ⟨by rw [hpages, List.length_set], ?_⟩
    intro g hg
    show ((newPage s).2).pages.getD g emptyFrame = _
    rw [hpages]
    exact frames_getD_set_ne _ _ _ _ (fun he => hg he.symm)
  | nil =>
    cases hev : (replacerEvict s.replacer).1 with
    | none =>
      rw [newPage_fail_body s hfree hev] at hsucc
      exact Option.noConfusion hsucc
    | some g0 =>
      have hex : ∃ nn, (g0, nn) ∈ s.replacer.store := by
        rcases evict_cases s.replacer with ⟨hev2, -⟩ | ⟨fid, nn, hev2, hmem, -, -⟩
        · rw [hev2] at hev
          exact Option.noConfusion hev
        · have hfg : fid = g0 := Option.some.inj (hev2.symm.trans hev)
          subst hfg
          exact ⟨nn, hmem⟩
      obtain ⟨nn, hmem⟩ := hex
      have hf : g0 < s.pages.length := h.storeLt (g0, nn) hmem
      have hfP : g0 < (npPrep
          { s with replacer := (replacerEvict s.replacer).2 } g0).pages.length := by
        rw [npPrep_pages]
        exact hf
      have hbody := newPage_evict_body s g0 hfree hev
      rw [hbody] at hsucc
      have hgf : g0 = f := congrArg Prod.snd (Option.some.inj hsucc)
      subst hgf
      have hpages : ((newPage s).2).pages = s.pages.set g0
          { pageId := s.nextPageId, pinCount := 1, isDirty := false,
            data := zeroPage } := by
        rw [hbody, nph_pages _ g0 hfP, npPrep_pages, npPrep_nextPageId]
      refine ⟨by rw [hpages, List.length_set], ?_⟩
      intro g hg
      show ((newPage s).2).pages.getD g emptyFrame = _
      rw [hpages]
      exact frames_getD_set_ne _ _ _ _ (fun he => hg he.symm)

/-- After `new_page → p`, a client write of `B` into `p`'s frame, and
`unpin_page(p, true)`, the tracking predicate holds (provided every frame's
page id was below `next_page_id_` at the allocation). -/
theorem rtCore_establish {s0 : BPMState} (hWF : WF s0)
    (hpids : ∀ g, g < s0.pages.length →
      (getFrame s0 g).pageId < s0.nextPageId)
    (p : Int) (f : Nat) (B : PageData)
    (hnew : (newPage s0).1 = some (p, f)) :
    rtCore p B (unpinPage (writeData (newPage s0).2 p B) p true).2 ∧
    WF (unpinPage (writeData (newPage s0).2 p B) p true).2 := by
  have hWF1 : WF (newPage s0).2 := wf_newPage hWF
  obtain ⟨hp, hnpi, htab, hframe⟩ := newPage_success hWF p f hnew
  obtain ⟨hlen1, hothers⟩ := newPage_other_frames hWF p f hnew
  have hflen1 : f < ((newPage s0).2).pages.length := hWF1.tableLt p f htab
  have hw : writeData (newPage s0).2 p B =
      setFrame (newPage s0).2 f { getFrame (newPage s0).2 f with data := B } := by
    rw [writeData, htab]
  have hgw_self : getFrame (writeData (newPage s0).2 p B) f =
      { getFrame (newPage s0).2 f with data := B } := by
    rw [hw]
    exact frames_getD_set_self _ _ _ hflen1
  have hgw_ne : ∀ g, g ≠ f → getFrame (writeData (newPage s0).2 p B) g =
      getFrame (newPage s0).2 g := by
    intro g hg
    rw [hw]
    exact frames_getD_set_ne _ _ _ _ (fun he => hg he.symm)
  have htab_w : alookup (writeData (newPage s0).2 p B).pageTable p = some f := by
    rw [hw]
    exact htab
  have hpin_w : (getFrame (writeData (newPage s0).2 p B) f).pinCount = 1 := by
    rw [hgw_self, hframe]
  have hwlen : f < (writeData (newPage s0).2 p B).pages.length := by
    rw [hw]
    show f < (((newPage s0).2).pages.set f _).length
    rw [List.length_set]
    exact hflen1
  have hpin_ne : ¬ (getFrame (writeData (newPage s0).2 p B) f).pinCount = 0 := by
    rw [hpin_w]
    exact one_ne_zero
  have hz : (getFrame (writeData (newPage s0).2 p B) f).pinCount - 1 = 0 := by
    rw [hpin_w]
  have hbody := unpin_zero_body (writeData (newPage s0).2 p B) p true f
    htab_w hpin_ne hz
  have hnext_w : (writeData (newPage s0).2 p B).nextPageId
      = s0.nextPageId + 1 := by
    rw [hw]
    exact hnpi
  have hUnext : ((unpinPage (writeData (newPage s0).2 p B) p true).2).nextPageId
      = s0.nextPageId + 1 := by
    rw [hbody]
    exact hnext_w
  have hUtab : alookup
      ((unpinPage (writeData (newPage s0).2 p B) p true).2).pageTable p
      = some f := by
    rw [hbody]
    exact htab_w
  have hUself : getFrame (unpinPage (writeData (newPage s0).2 p B) p true).2 f
      = { pageId := p, pinCount := 0, isDirty := true, data := B } := by
    rw [hbody]
    show ((writeData (newPage s0).2 p B).pages.set f
        (unpinFrame (getFrame (writeData (newPage s0).2 p B) f) true)).getD f
        emptyFrame = _
    rw [frames_getD_set_self _ _ _ hwlen, hgw_self, hframe]
    rfl
  have hUne : ∀ g, g ≠ f →
      getFrame (unpinPage (writeData (newPage s0).2 p B) p true).2 g =
      getFrame s0 g := by
    intro g hg
    rw [hbody]
    show ((writeData (newPage s0).2 p B).pages.set f
        (unpinFrame (getFrame (writeData (newPage s0).2 p B) f) true)).getD g
        emptyFrame = _
    rw [frames_getD_set_ne _ _ _ _ (fun he => hg he.symm)]
    show getFrame (writeData (newPage s0).2 p B) g = _
    rw [hgw_ne g hg, hothers g hg]
  have hUlen : ((unpinPage (writeData (newPage s0).2 p B) p true).2).pages.length
      = s0.pages.length := by
    rw [hbody]
    show ((writeData (newPage s0).2 p B).pages.set f _).length = _
    rw [List.length_set, hw]
    show (((newPage s0).2).pages.set f _).length = _
    rw [List.length_set]
    exact hlen1
  refine ⟨⟨?_, ?_, Or.inl ⟨f, hUtab, ?_, ?_, ?_⟩⟩, ?_⟩
  · rw [hp]
    exact hWF.nextNonneg
  · rw [hUnext, hp]
    omega
  · rw [hUself]
  · rw [hUself]
  · intro g hg hgf
    rw [hUne g hgf]
    have hlt := hpids g (hUlen ▸ hg)
    rw [hp]
    omega
  · exact wf_unpinPage (wf_writeData hWF1 p B) p true

/-- In any state where the tracking predicate holds, a successful
`fetch_page(p)` returns a frame holding bytes `B` (hit: the dirty resident
frame; miss: the bytes reloaded from disk). -/
theorem rtCore_fetch {s : BPMState} (hWF : WF s) (p : Int) (B : PageData)
    (hC : rtCore p B s) (f2 : Nat) (hf : (fetchPage s p).1 = some f2) :
    (getFrame (fetchPage s p).2 f2).data = B := by
  obtain ⟨h0, h1, hres⟩ := hC
  have hinv : p ≠ INVALID_PAGE_ID := by
    rw [INVALID_PAGE_ID]
    omega
  rcases hres with ⟨fR, hfR, hdata, hdirty, huniq⟩ | ⟨hnone, hdiskB, hnoh⟩
  · have hflen := hWF.tableLt p fR hfR
    have hbody := fetch_hit_body s p fR hinv hfR
    rw [hbody] at hf
    have hf2 : fR = f2 := Option.some.inj hf
    subst hf2
    rw [hbody]
    show ((pinPageToFrame (setFrame s fR
        { getFrame s fR with isDirty := true }) fR).pages.getD fR
        emptyFrame).data = B
    rw [fetchHit_pages s fR hflen, frames_getD_set_self _ _ _ hflen]
    exact hdata
  · cases hfree : s.freeList with
    | cons g rest =>
      have hg : g < s.pages.length :=
        hWF.freeLt g (by rw [hfree]; exact List.mem_cons_self _ _)
      have hfP : g < (npPrep { s with freeList := rest } g).pages.length := by
        rw [npPrep_pages]
        exact hg
      have hbody := fetch_miss_free_body s p g rest hinv hnone hfree
      rw [hbody] at hf
      have hf2 : g = f2 := Option.some.inj hf
      subst hf2
      rw [hbody]
      show ((fetchInstall (npPrep { s with freeList := rest } g) p g).pages.getD
        g emptyFrame).data = B
      rw [fi_pages _ p g hfP, frames_getD_set_self _ _ _ hfP, npPrep_disk]
      show diskRead (installDisk s g) p = B
      rw [installDisk_read_ne s g p (hnoh g hg)]
      exact hdiskB
    | nil =>
      cases hev : (replacerEvict s.replacer).1 with
      | none =>
        rw [fetch_miss_fail_body s p hinv hnone hfree hev] at hf
        exact Option.noConfusion hf
      | some g =>
        have hex : ∃ nn, (g, nn) ∈ s.replacer.store := by
          rcases evict_cases s.replacer with ⟨hev2, -⟩ | ⟨fid, nn, hev2, hmem, -, -⟩
          · rw [hev2] at hev
            exact Option.noConfusion hev
          · have hfg : fid = g := Option.some.inj (hev2.symm.trans hev)
            subst hfg
            exact ⟨nn, hmem⟩
        obtain ⟨nn, hmem⟩ := hex
        have hg : g < s.pages.length := hWF.storeLt (g, nn) hmem
        have hfP : g < (npPrep
            { s with replacer := (replacerEvict s.replacer).2 } g).pages.length := by
          rw [npPrep_pages]
          exact hg
        have hbody := fetch_miss_evict_body s p g hinv hnone hfree hev
        rw [hbody] at hf
        have hf2 : g = f2 := Option.some.inj hf
        subst hf2
        rw [hbody]
        show ((fetchInstall (npPrep
            { s with replacer := (replacerEvict s.replacer).2 } g) p g).pages.getD
          g emptyFrame).data = B
        rw [fi_pages _ p g hfP, frames_getD_set_self _ _ _ hfP, npPrep_disk]
        show diskRead (installDisk s g) p = B
        rw [installDisk_read_ne s g p (hnoh g hg)]
        exact hdiskB

/-- C4 (amended): round trip.  In any run that reaches a state (with every
frame's page id below `next_page_id_`), successfully calls `new_page`
yielding page `p` in frame `f`, writes bytes `B` into `p`'s pinned frame,
calls `unpin_page(p, true)`, and then performs any sequence of
`new_page` / `fetch_page` / `unpin_page` calls that do not name `p` itself
(the sequence may well evict `p`'s frame), a subsequent successful
`fetch_page(p)` returns a frame whose bytes equal `B`. -/
theorem fetch_round_trip (n k : Nat) (pre mid : List Op) (p : Int) (f : Nat)
    (B : PageData)
    (hpids : ∀ g, g < (runOps (bpmInit n k) pre).pages.length →
      (getFrame (runOps (bpmInit n k) pre) g).pageId <
        (runOps (bpmInit n k) pre).nextPageId)
    (hnew : (newPage (runOps (bpmInit n k) pre)).1 = some (p, f))
    (hmid : ∀ op ∈ mid, avoidsPage p op = true) (f2 : Nat)
    (hfetch : (fetchPage (runOps (unpinPage (writeData
        (newPage (runOps (bpmInit n k) pre)).2 p B) p true).2 mid) p).1 =
      some f2) :
    (getFrame (fetchPage (runOps (unpinPage (writeData
        (newPage (runOps (bpmInit n k) pre)).2 p B) p true).2 mid) p).2
      f2).data = B := by
  have hWF0 : WF (runOps (bpmInit n k) pre) := wf_runOps (wf_init n k) pre
  obtain ⟨hC2, hWF2⟩ := rtCore_establish hWF0 hpids p f B hnew
  have hWF3 : WF (runOps (unpinPage (writeData
      (newPage (runOps (bpmInit n k) pre)).2 p B) p true).2 mid) :=
    wf_runOps hWF2 mid
  have hC3 := rtCore_runOps p B hWF2 hC2 mid hmid
  exact rtCore_fetch hWF3 p B hC3 f2 hfetch

def c4Bytes : PageData := List.replicate PAGE_SIZE 7

def c4State : BPMState := runOps (bpmInit 2 2)
  [Op.newOp, Op.writeOp 0 c4Bytes, Op.unpinOp 0 true, Op.unpinOp 0 false,
   Op.newOp, Op.unpinOp 1 false, Op.newOp]

/-- C4 counterexample: the claim as stated fails.  On a two-frame pool the
run creates page 0, writes bytes `B`, calls `unpin_page(0, true)`, and then
issues only `new_page` / `unpin_page` calls that evict frame 0 — but the
extra failing `unpin_page(0, false)` overwrites the dirty bit (the C3
failure-path mutation), so the eviction skips the write-back; the
subsequent successful `fetch_page(0)` returns zeroed bytes, not `B`. -/
theorem fetch_round_trip_counterexample :
    (fetchPage c4State 0).1 = some 1 ∧
    (getFrame (fetchPage c4State 0).2 1).data = zeroPage ∧
    zeroPage ≠ c4Bytes :=
  ⟨rfl, rfl, by decide⟩

def c4WBytes : PageData := List.replicate PAGE_SIZE 9

/-- Witness for `fetch_round_trip`: a one-frame pool, `new_page → 0`, write,
`unpin_page(0, true)`, then `new_page` (which evicts frame 0 and writes the
bytes back) and `unpin_page(1, false)`; the refetch of page 0 returns the
written bytes. -/
theorem fetch_round_trip_witness :
    (∀ op ∈ [Op.newOp, Op.unpinOp 1 false], avoidsPage 0 op = true) ∧
    (newPage (runOps (bpmInit 1 2) [])).1 = some (0, 0) ∧
    (fetchPage (runOps (unpinPage (writeData
        (newPage (runOps (bpmInit 1 2) [])).2 0 c4WBytes) 0 true).2
      [Op.newOp, Op.unpinOp 1 false]) 0).1 = some 0 ∧
    (getFrame (fetchPage (runOps (unpinPage (writeData
        (newPage (runOps (bpmInit 1 2) [])).2 0 c4WBytes) 0 true).2
      [Op.newOp, Op.unpinOp 1 false]) 0).2 0).data = c4WBytes := by
  refine ⟨by decide, by decide, by decide, ?_⟩
  exact fetch_round_trip 1 2 [] [Op.newOp, Op.unpinOp 1 false] 0 0 c4WBytes
    (by decide) (by decide) (by decide) 0 (by decide)

end BusTub
